import Mathlib

/-!
Shallow embedding of `DocumentProcessor`
(`src/skills/feishu-analyst/scripts/document_processor.py`) from the
feishu-skill repository, and theorems settling the frozen claims C1..C10.

Python run-time values are modelled by the inductive type `PyVal`; Python
dicts become association lists in insertion order.  The JSON codec
(`json.dumps` / `json.loads` from the Python standard library, which is not
part of the repository) is modelled by a compact-output encoder and a fueled
recursive-descent decoder over character lists.
-/

set_option maxHeartbeats 1000000

/-- A Python run-time value, as far as `document_processor.py` inspects it:
`None`, booleans, integers, strings, lists, and (string-keyed) dicts kept as
association lists in insertion order. -/
inductive PyVal : Type where
  | none : PyVal
  | bool : Bool → PyVal
  | int : Int → PyVal
  | str : String → PyVal
  | list : List PyVal → PyVal
  | dict : List (String × PyVal) → PyVal

mutual

def PyVal.beq : PyVal → PyVal → Bool
  | .none, .none => true
  | .bool a, .bool b => a == b
  | .int a, .int b => a == b
  | .str a, .str b => a == b
  | .list xs, .list ys => PyVal.beqList xs ys
  | .dict d, .dict e => PyVal.beqDict d e
  | _, _ => false

def PyVal.beqList : List PyVal → List PyVal → Bool
  | [], [] => true
  | x :: xs, y :: ys => PyVal.beq x y && PyVal.beqList xs ys
  | _, _ => false

def PyVal.beqDict : List (String × PyVal) → List (String × PyVal) → Bool
  | [], [] => true
  | (k, v) :: xs, (l, w) :: ys => k == l && PyVal.beq v w && PyVal.beqDict xs ys
  | _, _ => false

end

/-- Induction over `PyVal` with member hypotheses for the nested lists. -/
lemma PyVal.inductOn (P : PyVal → Prop)
    (hnone : P .none) (hbool : ∀ b, P (.bool b)) (hint : ∀ n, P (.int n))
    (hstr : ∀ s, P (.str s))
    (hlist : ∀ xs, (∀ x ∈ xs, P x) → P (.list xs))
    (hdict : ∀ es, (∀ kv ∈ es, P kv.2) → P (.dict es)) : ∀ v, P v := by
  have key : ∀ (n : Nat) (v : PyVal), sizeOf v ≤ n → P v := by
    intro n
    induction n with
    | zero =>
      intro v hv
      cases v <;> simp_arith at hv
    | succ n ih =>
      intro v hv
      cases v with
      | none => exact hnone
      | bool b => exact hbool b
      | int m => exact hint m
      | str s => exact hstr s
      | list xs =>
        refine hlist xs (fun x hx => ih x ?_)
        have h1 := List.sizeOf_lt_of_mem hx
        simp only [PyVal.list.sizeOf_spec] at hv
        omega
      | dict es =>
        refine hdict es (fun kv hkv => ih kv.2 ?_)
        have h1 := List.sizeOf_lt_of_mem hkv
        obtain ⟨k, v2⟩ := kv
        simp only [PyVal.dict.sizeOf_spec] at hv
        simp only [Prod.mk.sizeOf_spec] at h1
        simp only
        omega
  intro v
  exact key (sizeOf v) v (Nat.le_refl _)

lemma PyVal.beqList_iff (xs : List PyVal)
    (h : ∀ x ∈ xs, ∀ b, (PyVal.beq x b = true) ↔ x = b) :
    ∀ ys, (PyVal.beqList xs ys = true) ↔ xs = ys := by
  induction xs with
  | nil => intro ys; cases ys <;> simp [PyVal.beqList]
  | cons x xs ihx =>
    intro ys
    cases ys with
    | nil => simp [PyVal.beqList]
    | cons y ys =>
      have hx := h x (by simp)
      have hrest := ihx (fun z hz b => h z (by simp [hz]) b) ys
      simp [PyVal.beqList, Bool.and_eq_true, hx, hrest]

lemma PyVal.beqDict_iff (xs : List (String × PyVal))
    (h : ∀ kv ∈ xs, ∀ b, (PyVal.beq kv.2 b = true) ↔ kv.2 = b) :
    ∀ ys, (PyVal.beqDict xs ys = true) ↔ xs = ys := by
  induction xs with
  | nil => intro ys; cases ys <;> simp [PyVal.beqDict]
  | cons kv xs ihx =>
    intro ys
    cases ys with
    | nil => obtain ⟨k, v⟩ := kv; simp [PyVal.beqDict]
    | cons lw ys =>
      obtain ⟨k, v⟩ := kv
      obtain ⟨l, w⟩ := lw
      have hx := h (k, v) (by simp)
      have hrest := ihx (fun z hz b => h z (by simp [hz]) b) ys
      simp [PyVal.beqDict, Bool.and_eq_true, hx w, hrest, Prod.ext_iff]

lemma PyVal.beq_iff : ∀ a b : PyVal, (PyVal.beq a b = true) ↔ a = b := by
  intro a
  induction a using PyVal.inductOn with
  | hnone => intro b; cases b <;> simp [PyVal.beq]
  | hbool x => intro b; cases b <;> simp [PyVal.beq]
  | hint x => intro b; cases b <;> simp [PyVal.beq]
  | hstr x => intro b; cases b <;> simp [PyVal.beq]
  | hlist xs hIH =>
    intro b
    cases b <;> simp [PyVal.beq, PyVal.beqList_iff xs hIH]
  | hdict es hIH =>
    intro b
    cases b <;> simp [PyVal.beq, PyVal.beqDict_iff es hIH]

instance : DecidableEq PyVal := fun a b => decidable_of_iff _ (PyVal.beq_iff a b)

/-- Python truthiness (`bool(v)`) for the shapes `PyVal` models. -/
def pyTruthy : PyVal → Bool
  | .none => false
  | .bool b => b
  | .int n => decide (n ≠ 0)
  | .str s => decide (s ≠ "")
  | .list xs => !xs.isEmpty
  | .dict d => !d.isEmpty

/-- Lookup in a dict body; first binding wins (claim inputs never carry
duplicate keys). -/
def dictGet (d : List (String × PyVal)) (k : String) : Option PyVal :=
  (d.find? (fun kv => kv.1 = k)).map (fun kv => kv.2)

/-- `d.get(k, dflt)` on a dict body. -/
def dictGetD (d : List (String × PyVal)) (k : String) (dflt : PyVal) : PyVal :=
  (dictGet d k).getD dflt

/-- Python `v.get(k, dflt)`.  CPython raises `AttributeError` when `v` is not
a dict; that path is not reachable from any claim input and is modelled by
returning the default. -/
def pyGetD (v : PyVal) (k : String) (dflt : PyVal) : PyVal :=
  match v with
  | .dict d => dictGetD d k dflt
  | _ => dflt

/-- `k in d` for a dict body. -/
def hasKey (d : List (String × PyVal)) (k : String) : Bool :=
  (dictGet d k).isSome

/-- The list Python iterates over; non-list values never reach an iteration
site in any claim input. -/
def asList : PyVal → List PyVal
  | .list xs => xs
  | _ => []

/-- Python `len` for sized values (`len` on other shapes raises and is not
reachable from any claim input). -/
def pyLen : PyVal → Nat
  | .list xs => xs.length
  | .dict d => d.length
  | .str s => s.length
  | _ => 0

/-- The decimal digit characters. -/
def digitChar : Nat → Char
  | 0 => '0'
  | 1 => '1'
  | 2 => '2'
  | 3 => '3'
  | 4 => '4'
  | 5 => '5'
  | 6 => '6'
  | 7 => '7'
  | 8 => '8'
  | _ => '9'

/-- Least-significant-first decimal digits of `n`; the first argument is
fuel (`n` itself is always enough, since `n / 10 < n` for `n ≠ 0`). -/
def revDigitsAux : Nat → Nat → List Char
  | 0, _ => []
  | fuel + 1, n => if n = 0 then [] else digitChar (n % 10) :: revDigitsAux fuel (n / 10)

/-- Decimal representation of a natural number, as characters. -/
def natChars (n : Nat) : List Char :=
  if n = 0 then ['0'] else (revDigitsAux n n).reverse

/-- Decimal representation of an integer (Python `str(i)` format). -/
def intChars (i : Int) : List Char :=
  if i < 0 then '-' :: natChars i.natAbs else natChars i.natAbs

/-- Python `str(v)` as used by f-string interpolation in the source.
List/dict values never reach an interpolation site in any claim input, so
their Python `repr` text is not modelled precisely. -/
def pyStr : PyVal → String
  | .none => "None"
  | .bool true => "True"
  | .bool false => "False"
  | .int i => String.mk (intChars i)
  | .str s => s
  | .list _ => "[...]"
  | .dict _ => "\x7b...\x7d"

/-! ## `DocumentProcessor._extract_json_from_text` (lines 335-403)

The scan keeps `bracket_count`, `in_string` and `escape_next` exactly as the
Python loop does, and returns the index of the first `]` seen outside a
string that brings the bracket count to zero. -/

/-- The scanning loop of `_extract_json_from_text`: `i` is the index of the
head character, and the result is the absolute index at which the bracket
count first returns to zero, if any. -/
def extractScan : List Char → Nat → Int → Bool → Bool → Option Nat
  | [], _, _, _, _ => Option.none
  | c :: cs, i, bc, inStr, esc =>
    if esc then extractScan cs (i + 1) bc inStr false
    else if c = '\\' ∧ inStr then extractScan cs (i + 1) bc inStr true
    else if c = '"' then extractScan cs (i + 1) bc (!inStr) false
    else if ¬inStr ∧ c = '[' then extractScan cs (i + 1) (bc + 1) inStr false
    else if ¬inStr ∧ c = ']' then
      if bc - 1 = 0 then Option.some i else extractScan cs (i + 1) (bc - 1) inStr false
    else extractScan cs (i + 1) bc inStr false

/-- `DocumentProcessor._extract_json_from_text`: `None` unless the text
starts with `[`; otherwise scan and return `text[:i+1]` at the first index
`i` where the bracket count returns to zero, `None` if there is none. -/
def extractJsonFromText (text : String) : Option String :=
  if text.data.head? = Option.some '[' then
    match extractScan text.data 0 0 false false with
    | Option.some i => Option.some (String.mk (text.data.take (i + 1)))
    | Option.none => Option.none
  else Option.none

/-! Spec-side characterization of the extraction, following the words of the
claim: a state machine over `(bracket count, in_string, escape)` where `[`
and `]` are counted only outside double-quoted string literals, `in_string`
toggles on an unescaped `"`, and backslash escapes are honored inside
strings; the extraction returns the prefix ending at the first position
where the count returns to zero. -/

/-- One step of the claim's bracket/string state machine. -/
def specStep : Int × Bool × Bool → Char → Int × Bool × Bool
  | (bc, inStr, esc), c =>
    if esc then (bc, inStr, false)
    else if c = '\\' ∧ inStr then (bc, inStr, true)
    else if c = '"' then (bc, !inStr, false)
    else if ¬inStr ∧ c = '[' then (bc + 1, inStr, false)
    else if ¬inStr ∧ c = ']' then (bc - 1, inStr, false)
    else (bc, inStr, false)

/-- The claim's bracket count after processing the first `k` characters. -/
def specCountAfter (cs : List Char) (k : Nat) : Int :=
  ((cs.take k).foldl specStep ((0 : Int), false, false)).1

/-- The extraction as the claim words it: the prefix ending at the first
position where the bracket count returns to zero. -/
def specExtract (text : String) : Option String :=
  if text.data.head? = Option.some '[' then
    match (List.range text.data.length).find?
        (fun i => decide (specCountAfter text.data (i + 1) = 0)) with
    | Option.some i => Option.some (String.mk (text.data.take (i + 1)))
    | Option.none => Option.none
  else Option.none

/-- Peeling one character off the first-position search, when the first
character does not bring the count to zero. -/
lemma find_shift (c : Char) (cs : List Char) (i : Nat) (st st' : Int × Bool × Bool)
    (hstep : specStep st c = st') (hpos' : 0 < st'.1) :
    ((List.range cs.length).find?
        (fun k => decide (((cs.take (k + 1)).foldl specStep st').1 = 0))).map
          (fun k => k + (i + 1)) =
    ((List.range (c :: cs).length).find?
        (fun k => decide ((((c :: cs).take (k + 1)).foldl specStep st).1 = 0))).map
          (fun k => k + i) := by
  have h0 : decide ((((c :: cs).take (0 + 1)).foldl specStep st).1 = 0) = false := by
    simp only [Nat.zero_add, List.take_succ_cons, List.take_zero, List.foldl_cons, List.foldl_nil,
      hstep, decide_eq_false_iff_not]
    omega
  rw [List.length_cons, List.range_succ_eq_map, List.find?_cons, h0]
  simp only []
  rw [List.find?_map, Option.map_map]
  have hpred : ((fun k => decide ((((c :: cs).take (k + 1)).foldl specStep st).1 = 0)) ∘ Nat.succ)
      = (fun k => decide (((cs.take (k + 1)).foldl specStep st').1 = 0)) := by
    funext k
    simp only [Function.comp_apply, Nat.succ_eq_add_one, List.take_succ_cons, List.foldl_cons,
      hstep]
  have hmap : ((fun k => k + i) ∘ Nat.succ) = (fun k => k + (i + 1)) := by
    funext k
    simp only [Function.comp_apply, Nat.succ_eq_add_one]
    omega
  rw [hpred, hmap]

/-- The scanning loop agrees with a first-position search over the spec
state machine, as long as the running bracket count is positive. -/
lemma extractScan_eq_find (cs : List Char) : ∀ (i : Nat) (st : Int × Bool × Bool),
    0 < st.1 →
    extractScan cs i st.1 st.2.1 st.2.2 =
      ((List.range cs.length).find?
          (fun k => decide (((cs.take (k + 1)).foldl specStep st).1 = 0))).map (fun k => k + i) := by
  induction cs with
  | nil => intro i st _; simp [extractScan]
  | cons c cs ih =>
    intro i st hpos
    obtain ⟨bc, inStr, esc⟩ := st
    simp only at hpos
    by_cases hesc : esc = true
    · have hL : extractScan (c :: cs) i bc inStr esc = extractScan cs (i + 1) bc inStr false := by
        simp [extractScan, hesc]
      have hstep : specStep (bc, inStr, esc) c = (bc, inStr, false) := by
        simp [specStep, hesc]
      rw [hL, ih (i + 1) (bc, inStr, false) hpos]
      exact find_shift c cs i _ _ hstep hpos
    · have hescf : esc = false := by simpa using hesc
      subst hescf
      by_cases hbs : c = '\\' ∧ inStr = true
      · have hL : extractScan (c :: cs) i bc inStr false = extractScan cs (i + 1) bc inStr true := by
          simp [extractScan, hbs]
        have hstep : specStep (bc, inStr, false) c = (bc, inStr, true) := by
          simp [specStep, hbs]
        rw [hL, ih (i + 1) (bc, inStr, true) hpos]
        exact find_shift c cs i _ _ hstep hpos
      · by_cases hq : c = '"'
        · have hL : extractScan (c :: cs) i bc inStr false
              = extractScan cs (i + 1) bc (!inStr) false := by
            simp [extractScan, hbs, hq]
          have hstep : specStep (bc, inStr, false) c = (bc, !inStr, false) := by
            simp [specStep, hbs, hq]
          rw [hL, ih (i + 1) (bc, !inStr, false) hpos]
          exact find_shift c cs i _ _ hstep hpos
        · by_cases hob : inStr = false ∧ c = '['
          · have hL : extractScan (c :: cs) i bc inStr false
                = extractScan cs (i + 1) (bc + 1) inStr false := by
              simp [extractScan, hbs, hq, hob]
            have hstep : specStep (bc, inStr, false) c = (bc + 1, inStr, false) := by
              simp [specStep, hbs, hq, hob]
            have hpos1 : (0 : Int) < bc + 1 := by omega
            rw [hL, ih (i + 1) (bc + 1, inStr, false) hpos1]
            exact find_shift c cs i _ _ hstep hpos1
          · by_cases hcb : inStr = false ∧ c = ']'
            · by_cases hz : bc - 1 = 0
              · -- the loop returns at this character
                have hL : extractScan (c :: cs) i bc inStr false = Option.some i := by
                  simp [extractScan, hbs, hq, hob, hcb, hz]
                have hstep : specStep (bc, inStr, false) c = (bc - 1, inStr, false) := by
                  simp [specStep, hbs, hq, hob, hcb]
                have h0 : decide ((((c :: cs).take (0 + 1)).foldl specStep
                    (bc, inStr, false)).1 = 0) = true := by
                  simp only [Nat.zero_add, List.take_succ_cons, List.take_zero, List.foldl_cons,
                    List.foldl_nil, hstep, decide_eq_true_eq]
                  exact hz
                rw [hL, List.length_cons, List.range_succ_eq_map, List.find?_cons, h0]
                simp
              · have hL : extractScan (c :: cs) i bc inStr false
                    = extractScan cs (i + 1) (bc - 1) inStr false := by
                  simp [extractScan, hbs, hq, hob, hcb, hz]
                have hstep : specStep (bc, inStr, false) c = (bc - 1, inStr, false) := by
                  simp [specStep, hbs, hq, hob, hcb]
                have hpos1 : (0 : Int) < bc - 1 := by omega
                rw [hL, ih (i + 1) (bc - 1, inStr, false) hpos1]
                exact find_shift c cs i _ _ hstep hpos1
            · have hL : extractScan (c :: cs) i bc inStr false
                  = extractScan cs (i + 1) bc inStr false := by
                simp [extractScan, hbs, hq, hob, hcb]
              have hstep : specStep (bc, inStr, false) c = (bc, inStr, false) := by
                simp [specStep, hbs, hq, hob, hcb]
              rw [hL, ih (i + 1) (bc, inStr, false) hpos]
              exact find_shift c cs i _ _ hstep hpos

/-- The two extraction functions agree on every input string. -/
lemma extractJsonFromText_eq_specExtract (text : String) :
    extractJsonFromText text = specExtract text := by
  rcases hd : text.data with _ | ⟨c, cs⟩
  · simp [extractJsonFromText, specExtract, hd]
  · by_cases hc : c = '['
    · subst hc
      have hstep : specStep ((0 : Int), false, false) '[' = (1, false, false) := by
        simp [specStep]
      have hscan : extractScan ('[' :: cs) 0 0 false false = extractScan cs 1 1 false false := by
        simp [extractScan]
      have hmain := extractScan_eq_find cs 1 ((1 : Int), false, false) (by omega)
      have hfind :
          ((List.range cs.length).find?
              (fun k => decide (((cs.take (k + 1)).foldl specStep
                ((1 : Int), false, false)).1 = 0))).map (fun k => k + 1) =
          ((List.range ('[' :: cs).length).find?
              (fun k => decide ((((('[' : Char) :: cs).take (k + 1)).foldl specStep
                ((0 : Int), false, false)).1 = 0))) := by
        have h := find_shift '[' cs 0 ((0 : Int), false, false) ((1 : Int), false, false)
          hstep (by omega)
        simpa using h
      simp only [extractJsonFromText, specExtract, hd, List.head?_cons, specCountAfter,
        if_pos rfl]
      rw [hscan]
      simp only at hmain
      rw [hmain, ← hfind]
    · simp only [extractJsonFromText, specExtract, hd]
      have hne : ¬ ((c :: cs).head? = Option.some '[') := by
        simp [hc]
      rw [if_neg hne, if_neg hne]

/-- C3: for every input string, `_extract_json_from_text` returns `None` if
the string does not start with `[`; otherwise it returns the prefix ending
at the first position where the bracket count (counted only outside quoted
strings, with `in_string` toggled on unescaped `"` and backslash escapes
honored inside strings) returns to zero, and `None` if no such position
exists; a literal `]` inside a quoted string never terminates extraction
early, and the documented example extracts exactly the JSON array part. -/
theorem c3_bracket_matching_extraction :
    (∀ text : String, extractJsonFromText text = specExtract text) ∧
    extractJsonFromText "[\x7b\"block_id\":\"a\",\"block_type\":2\x7d]EXTRA TEXT"
      = Option.some "[\x7b\"block_id\":\"a\",\"block_type\":2\x7d]" ∧
    extractJsonFromText "[\"a]b\",1]XX" = Option.some "[\"a]b\",1]" := by
  refine ⟨extractJsonFromText_eq_specExtract, ?_, ?_⟩
  · rfl
  · rfl

/-! ## JSON codec (model of `json.dumps` / `json.loads`)

`json.dumps` / `json.loads` come from the Python standard library, not from
the repository.  They are modelled by a compact JSON printer (separators
`,` and `:`, escaping only `"` and `\`) and a fueled recursive-descent
reader that accepts the compact grammar (string escapes, integers, nested
arrays and objects; insignificant whitespace and `\uXXXX` escapes are not
modelled, no claim input uses them).  `jsonLoads` fails unless the whole
input is consumed, matching `json.loads` raising on trailing data. -/

/-- Escape `"` and `\` in JSON string content. -/
def escapeChars : List Char → List Char
  | [] => []
  | c :: cs =>
    if c = '"' then '\\' :: '"' :: escapeChars cs
    else if c = '\\' then '\\' :: '\\' :: escapeChars cs
    else c :: escapeChars cs

/-- A JSON string literal for content `s`. -/
def dumpStrChars (s : String) : List Char :=
  '"' :: escapeChars s.data ++ ['"']

mutual

/-- Compact JSON encoding of a value, as characters. -/
def dumpChars : PyVal → List Char
  | .none => ("null" : String).data
  | .bool true => ("true" : String).data
  | .bool false => ("false" : String).data
  | .int i => intChars i
  | .str s => dumpStrChars s
  | .list xs => '[' :: dumpElems xs ++ [']']
  | .dict es => '\x7b' :: dumpMembers es ++ ['\x7d']

/-- Comma-separated encodings of array elements. -/
def dumpElems : List PyVal → List Char
  | [] => []
  | [x] => dumpChars x
  | x :: y :: xs => dumpChars x ++ ',' :: dumpElems (y :: xs)

/-- Comma-separated `"key":value` encodings of object members. -/
def dumpMembers : List (String × PyVal) → List Char
  | [] => []
  | [kv] => dumpStrChars kv.1 ++ ':' :: dumpChars kv.2
  | kv :: lw :: es => dumpStrChars kv.1 ++ ':' :: dumpChars kv.2 ++ ',' :: dumpMembers (lw :: es)

end

mutual

/-- Read a JSON string body up to the closing quote, decoding escapes. -/
def parseStringBody : List Char → Option (List Char × List Char)
  | [] => Option.none
  | c :: cs =>
    if c = '\\' then parseEscapeTail cs
    else if c = '"' then Option.some ([], cs)
    else (parseStringBody cs).map (fun r => (c :: r.1, r.2))

/-- Read the character after a backslash inside a JSON string. -/
def parseEscapeTail : List Char → Option (List Char × List Char)
  | [] => Option.none
  | c2 :: cs2 =>
    if c2 = '"' then (parseStringBody cs2).map (fun r => ('"' :: r.1, r.2))
    else if c2 = '\\' then (parseStringBody cs2).map (fun r => ('\\' :: r.1, r.2))
    else if c2 = '/' then (parseStringBody cs2).map (fun r => ('/' :: r.1, r.2))
    else if c2 = 'n' then (parseStringBody cs2).map (fun r => ('\n' :: r.1, r.2))
    else if c2 = 't' then (parseStringBody cs2).map (fun r => ('\t' :: r.1, r.2))
    else if c2 = 'r' then (parseStringBody cs2).map (fun r => ('\r' :: r.1, r.2))
    else if c2 = 'b' then (parseStringBody cs2).map (fun r => ('\x08' :: r.1, r.2))
    else if c2 = 'f' then (parseStringBody cs2).map (fun r => ('\x0c' :: r.1, r.2))
    else Option.none

end

/-- Read a run of decimal digits, most significant first, into `acc`. -/
def parseDigitsAux : List Char → Nat → Nat × List Char
  | [], acc => (acc, [])
  | c :: cs, acc =>
    if c.isDigit then parseDigitsAux cs (acc * 10 + (c.toNat - 48)) else (acc, c :: cs)

/-- Match an exact run of literal characters. -/
def expectChars : List Char → List Char → Option (List Char)
  | [], rest => Option.some rest
  | p :: ps, c :: rest => if c = p then expectChars ps rest else Option.none
  | _ :: _, [] => Option.none

mutual

/-- Fueled recursive-descent JSON value reader. -/
def parseVal : Nat → List Char → Option (PyVal × List Char)
  | 0, _ => Option.none
  | fuel + 1, cs =>
    match cs with
    | [] => Option.none
    | c :: rest =>
      if c = 'n' then (expectChars ['u', 'l', 'l'] rest).map (fun r => (.none, r))
      else if c = 't' then (expectChars ['r', 'u', 'e'] rest).map (fun r => (.bool true, r))
      else if c = 'f' then (expectChars ['a', 'l', 's', 'e'] rest).map (fun r => (.bool false, r))
      else if c = '"' then (parseStringBody rest).map (fun r => (.str (String.mk r.1), r.2))
      else if c = '[' then (parseArrayElems fuel rest).map (fun r => (.list r.1, r.2))
      else if c = '\x7b' then (parseObjMembers fuel rest).map (fun r => (.dict r.1, r.2))
      else if c = '-' then
        if (rest.head?.map Char.isDigit).getD false then
          let r := parseDigitsAux rest 0
          Option.some (.int (-(r.1 : Int)), r.2)
        else Option.none
      else if c.isDigit then
        let r := parseDigitsAux (c :: rest) 0
        Option.some (.int (r.1 : Int), r.2)
      else Option.none

/-- Array elements after `[`: either an immediate `]` or value `,` … `]`. -/
def parseArrayElems : Nat → List Char → Option (List PyVal × List Char)
  | 0, _ => Option.none
  | fuel + 1, cs =>
    if cs.head? = Option.some ']' then Option.some ([], cs.tail)
    else
      match parseVal fuel cs with
      | Option.some (v, rest2) =>
        (parseArrayTail fuel rest2).map (fun r => (v :: r.1, r.2))
      | Option.none => Option.none

/-- After one array element: `]` ends the array, `,` reads another. -/
def parseArrayTail : Nat → List Char → Option (List PyVal × List Char)
  | 0, _ => Option.none
  | fuel + 1, cs =>
    match cs with
    | c :: rest =>
      if c = ']' then Option.some ([], rest)
      else if c = ',' then
        match parseVal fuel rest with
        | Option.some (v, rest2) =>
          (parseArrayTail fuel rest2).map (fun r => (v :: r.1, r.2))
        | Option.none => Option.none
      else Option.none
    | [] => Option.none

/-- One `"key":value` object member. -/
def parseMember : Nat → List Char → Option ((String × PyVal) × List Char)
  | 0, _ => Option.none
  | fuel + 1, cs =>
    match cs with
    | c :: rest =>
      if c = '"' then
        match parseStringBody rest with
        | Option.some (kcs, rest2) =>
          match rest2 with
          | c2 :: rest3 =>
            if c2 = ':' then
              (parseVal fuel rest3).map (fun r => ((String.mk kcs, r.1), r.2))
            else Option.none
          | [] => Option.none
        | Option.none => Option.none
      else Option.none
    | [] => Option.none

/-- Object members after `{`: either an immediate `}` or member `,` … `}`. -/
def parseObjMembers : Nat → List Char → Option (List (String × PyVal) × List Char)
  | 0, _ => Option.none
  | fuel + 1, cs =>
    if cs.head? = Option.some '\x7d' then Option.some ([], cs.tail)
    else
      match parseMember fuel cs with
      | Option.some (kv, rest2) =>
        (parseMembersTail fuel rest2).map (fun r => (kv :: r.1, r.2))
      | Option.none => Option.none

/-- After one object member: `}` ends the object, `,` reads another. -/
def parseMembersTail : Nat → List Char → Option (List (String × PyVal) × List Char)
  | 0, _ => Option.none
  | fuel + 1, cs =>
    match cs with
    | c :: rest =>
      if c = '\x7d' then Option.some ([], rest)
      else if c = ',' then
        match parseMember fuel rest with
        | Option.some (kv, rest2) =>
          (parseMembersTail fuel rest2).map (fun r => (kv :: r.1, r.2))
        | Option.none => Option.none
      else Option.none
    | [] => Option.none

end

/-- Model of `json.dumps` with compact separators. -/
def jsonDumps (v : PyVal) : String :=
  String.mk (dumpChars v)

/-- Model of `json.loads`: parse the whole string, failing on trailing
data (Python raises `json.JSONDecodeError` there). -/
def jsonLoads (s : String) : Option PyVal :=
  match parseVal (s.data.length + 1) s.data with
  | Option.some (v, []) => Option.some v
  | _ => Option.none

mutual

/-- Number of `PyVal` nodes, counting containers twice (fuel bound for the
reader). -/
def nodeCount : PyVal → Nat
  | .list xs => 2 + nodeCountList xs
  | .dict es => 2 + nodeCountDict es
  | _ => 1

def nodeCountList : List PyVal → Nat
  | [] => 0
  | x :: xs => nodeCount x + nodeCountList xs

def nodeCountDict : List (String × PyVal) → Nat
  | [] => 0
  | kv :: kvs => 1 + nodeCount kv.2 + nodeCountDict kvs

end

/-- The input does not continue with a decimal digit (so a parsed number
token cannot be extended into it). -/
def headNotDigit (cs : List Char) : Prop :=
  ∀ c, cs.head? = Option.some c → c.isDigit = false

lemma headNotDigit_nil : headNotDigit [] := by
  intro c hc
  simp at hc

lemma headNotDigit_cons {c : Char} (h : c.isDigit = false) (cs : List Char) :
    headNotDigit (c :: cs) := by
  intro d hd
  simp at hd
  simpa [← hd] using h

lemma digitChar_isDigit (d : Nat) : (digitChar d).isDigit = true := by
  unfold digitChar
  split <;> decide

lemma digitChar_toNat (d : Nat) (h : d < 10) : (digitChar d).toNat - 48 = d := by
  interval_cases d <;> decide

lemma mem_revDigitsAux_isDigit : ∀ (fuel n : Nat) (c : Char),
    c ∈ revDigitsAux fuel n → c.isDigit = true := by
  intro fuel
  induction fuel with
  | zero => intro n c hc; simp [revDigitsAux] at hc
  | succ fuel ih =>
    intro n c hc
    by_cases hn : n = 0
    · simp [revDigitsAux, hn] at hc
    · simp only [revDigitsAux, if_neg hn, List.mem_cons] at hc
      rcases hc with hc | hc
      · subst hc; exact digitChar_isDigit _
      · exact ih _ _ hc

lemma mem_natChars_isDigit (n : Nat) (c : Char) (hc : c ∈ natChars n) :
    c.isDigit = true := by
  unfold natChars at hc
  by_cases hn : n = 0
  · simp [hn] at hc
    subst hc; decide
  · simp only [if_neg hn, List.mem_reverse] at hc
    exact mem_revDigitsAux_isDigit _ _ _ hc

lemma natChars_ne_nil (n : Nat) : natChars n ≠ [] := by
  unfold natChars
  by_cases hn : n = 0
  · simp [hn]
  · rcases n with _ | m
    · exact absurd rfl hn
    · simp only [if_neg hn, ne_eq, List.reverse_eq_nil_iff]
      simp [revDigitsAux, hn]

lemma revDigitsAux_foldl : ∀ (fuel n acc : Nat), n ≤ fuel →
    List.foldl (fun a c => a * 10 + (c.toNat - 48)) acc ((revDigitsAux fuel n).reverse)
      = acc * 10 ^ (revDigitsAux fuel n).length + n := by
  intro fuel
  induction fuel with
  | zero =>
    intro n acc hn
    interval_cases n
    simp [revDigitsAux]
  | succ fuel ih =>
    intro n acc hn
    by_cases h0 : n = 0
    · simp [revDigitsAux, h0]
    · have hdiv : n / 10 < n := Nat.div_lt_self (Nat.pos_of_ne_zero h0) (by omega)
      have hle : n / 10 ≤ fuel := by omega
      simp only [revDigitsAux, if_neg h0, List.reverse_cons, List.foldl_append, List.foldl_cons,
        List.foldl_nil, List.length_cons]
      rw [ih (n / 10) acc hle]
      rw [digitChar_toNat (n % 10) (Nat.mod_lt _ (by omega))]
      have : 10 ^ ((revDigitsAux fuel (n / 10)).length + 1)
          = 10 ^ (revDigitsAux fuel (n / 10)).length * 10 := by
        rw [pow_succ]
      rw [this]
      have hmod := Nat.div_add_mod n 10
      ring_nf
      omega

lemma natChars_foldl (n : Nat) :
    List.foldl (fun a c => a * 10 + (c.toNat - 48)) 0 (natChars n) = n := by
  unfold natChars
  by_cases hn : n = 0
  · simp [hn]
  · simp only [if_neg hn]
    rw [revDigitsAux_foldl n n 0 (Nat.le_refl _)]
    simp

lemma parseDigitsAux_append : ∀ (ds rest : List Char) (acc : Nat),
    (∀ c ∈ ds, c.isDigit = true) → headNotDigit rest →
    parseDigitsAux (ds ++ rest) acc
      = (ds.foldl (fun a c => a * 10 + (c.toNat - 48)) acc, rest) := by
  intro ds
  induction ds with
  | nil =>
    intro rest acc _ hrest
    rcases rest with _ | ⟨c, cs⟩
    · simp [parseDigitsAux]
    · have := hrest c (by simp)
      simp [parseDigitsAux, this]
  | cons d ds ih =>
    intro rest acc hds hrest
    have hd : d.isDigit = true := hds d (by simp)
    simp only [List.cons_append, parseDigitsAux, if_pos hd, List.foldl_cons]
    exact ih rest _ (fun c hc => hds c (by simp [hc])) hrest

lemma parseStringBody_escape : ∀ (cs rest : List Char),
    parseStringBody (escapeChars cs ++ '"' :: rest) = Option.some (cs, rest) := by
  intro cs
  induction cs with
  | nil =>
    intro rest
    show parseStringBody (escapeChars [] ++ '"' :: rest) = Option.some ([], rest)
    rfl
  | cons c cs ih =>
    intro rest
    by_cases hq : c = '"'
    · subst hq
      have h1 : escapeChars ('"' :: cs) ++ '"' :: rest
          = '\\' :: '"' :: (escapeChars cs ++ '"' :: rest) := by
        rw [show escapeChars ('"' :: cs) = '\\' :: '"' :: escapeChars cs from rfl]
        simp
      have h2 : parseStringBody ('\\' :: '"' :: (escapeChars cs ++ '"' :: rest))
          = (parseStringBody (escapeChars cs ++ '"' :: rest)).map
              (fun r => ('"' :: r.1, r.2)) := rfl
      rw [h1, h2, ih rest]
      rfl
    · by_cases hb : c = '\\'
      · subst hb
        have h1 : escapeChars ('\\' :: cs) ++ '"' :: rest
            = '\\' :: '\\' :: (escapeChars cs ++ '"' :: rest) := by
          rw [show escapeChars ('\\' :: cs) = '\\' :: '\\' :: escapeChars cs from rfl]
          simp
        have h2 : parseStringBody ('\\' :: '\\' :: (escapeChars cs ++ '"' :: rest))
            = (parseStringBody (escapeChars cs ++ '"' :: rest)).map
                (fun r => ('\\' :: r.1, r.2)) := rfl
        rw [h1, h2, ih rest]
        rfl
      · have h1 : escapeChars (c :: cs) = c :: escapeChars cs := by
          simp only [escapeChars]
          rw [if_neg hq, if_neg hb]
        have h2 : parseStringBody (c :: (escapeChars cs ++ '"' :: rest))
            = (parseStringBody (escapeChars cs ++ '"' :: rest)).map
                (fun r => (c :: r.1, r.2)) := by
          simp only [parseStringBody]
          rw [if_neg hb, if_neg hq]
        rw [h1, List.cons_append, h2, ih rest]
        rfl

lemma isDigit_ne_special (c : Char) (h : c.isDigit = true) :
    c ≠ 'n' ∧ c ≠ 't' ∧ c ≠ 'f' ∧ c ≠ '"' ∧ c ≠ '[' ∧ c ≠ '\x7b' ∧ c ≠ '-' ∧ c ≠ ']'
      ∧ c ≠ ',' ∧ c ≠ '\x7d' := by
  refine ⟨?_, ?_, ?_, ?_, ?_, ?_, ?_, ?_, ?_, ?_⟩ <;>
    (intro hc; subst hc; exact absurd h (by decide))

/-- Every JSON encoding is nonempty and never starts with `]`. -/
lemma dumpChars_head : ∀ v : PyVal, ∃ c cs, dumpChars v = c :: cs ∧ c ≠ ']' := by
  intro v
  cases v with
  | none => exact ⟨'n', _, rfl, by decide⟩
  | bool b =>
    cases b with
    | false => exact ⟨'f', _, rfl, by decide⟩
    | true => exact ⟨'t', _, rfl, by decide⟩
  | int i =>
    by_cases hi : i < 0
    · refine ⟨'-', natChars i.natAbs, ?_, by decide⟩
      show intChars i = '-' :: natChars i.natAbs
      unfold intChars
      rw [if_pos hi]
    · rcases hnc : natChars i.natAbs with _ | ⟨c, cs⟩
      · exact absurd hnc (natChars_ne_nil _)
      · refine ⟨c, cs, ?_, ?_⟩
        · show intChars i = c :: cs
          unfold intChars
          rw [if_neg hi, hnc]
        · have hd : c.isDigit = true :=
            mem_natChars_isDigit _ c (by rw [hnc]; exact List.mem_cons_self c cs)
          exact (isDigit_ne_special c hd).2.2.2.2.2.2.2.1
  | str s => exact ⟨'"', _, rfl, by decide⟩
  | list xs => exact ⟨'[', _, rfl, by decide⟩
  | dict es => exact ⟨'\x7b', _, rfl, by decide⟩

/-- Encoding of the rest of an array after one element: `,e,…,e]` or `]`. -/
def arrTailEnc : List PyVal → List Char → List Char
  | [], rest => ']' :: rest
  | x :: xs, rest => ',' :: (dumpChars x ++ arrTailEnc xs rest)

/-- Encoding of the rest of an object after one member. -/
def objTailEnc : List (String × PyVal) → List Char → List Char
  | [], rest => '\x7d' :: rest
  | kv :: kvs, rest =>
    ',' :: (dumpStrChars kv.1 ++ ':' :: (dumpChars kv.2 ++ objTailEnc kvs rest))

lemma arrTailEnc_headNotDigit (xs : List PyVal) (rest : List Char) :
    headNotDigit (arrTailEnc xs rest) := by
  cases xs with
  | nil => exact headNotDigit_cons (by decide) _
  | cons x xs => exact headNotDigit_cons (by decide) _

lemma objTailEnc_headNotDigit (es : List (String × PyVal)) (rest : List Char) :
    headNotDigit (objTailEnc es rest) := by
  cases es with
  | nil => exact headNotDigit_cons (by decide) _
  | cons kv kvs => exact headNotDigit_cons (by decide) _

lemma nodeCount_pos : ∀ v : PyVal, 1 ≤ nodeCount v := by
  intro v
  cases v <;> simp [nodeCount] <;> omega

lemma dumpElems_append : ∀ (xs : List PyVal) (x : PyVal) (rest : List Char),
    dumpElems (x :: xs) ++ ']' :: rest = dumpChars x ++ arrTailEnc xs rest := by
  intro xs
  induction xs with
  | nil =>
    intro x rest
    show dumpChars x ++ ']' :: rest = dumpChars x ++ (']' :: rest)
    rfl
  | cons y xs ih =>
    intro x rest
    have h1 : dumpElems (x :: y :: xs) = dumpChars x ++ ',' :: dumpElems (y :: xs) := rfl
    rw [h1, List.append_assoc, List.cons_append, ih y rest]
    rfl

lemma dumpMembers_append : ∀ (es : List (String × PyVal)) (kv : String × PyVal)
    (rest : List Char),
    dumpMembers (kv :: es) ++ '\x7d' :: rest
      = dumpStrChars kv.1 ++ ':' :: (dumpChars kv.2 ++ objTailEnc es rest) := by
  intro es
  induction es with
  | nil =>
    intro kv rest
    show (dumpStrChars kv.1 ++ ':' :: dumpChars kv.2) ++ '\x7d' :: rest = _
    simp [objTailEnc]
  | cons lw es ih =>
    intro kv rest
    have h1 : dumpMembers (kv :: lw :: es)
        = dumpStrChars kv.1 ++ ':' :: dumpChars kv.2 ++ ',' :: dumpMembers (lw :: es) := rfl
    rw [h1]
    have h2 : objTailEnc (lw :: es) rest
        = ',' :: (dumpStrChars lw.1 ++ ':' :: (dumpChars lw.2 ++ objTailEnc es rest)) := rfl
    rw [h2, ← ih lw rest]
    simp

lemma parseArrayTail_dump (xs : List PyVal)
    (hIH : ∀ x ∈ xs, ∀ (fuel : Nat) (rest : List Char), nodeCount x ≤ fuel →
      headNotDigit rest → parseVal fuel (dumpChars x ++ rest) = Option.some (x, rest)) :
    ∀ (fuel : Nat) (rest : List Char), 1 + nodeCountList xs ≤ fuel →
      parseArrayTail fuel (arrTailEnc xs rest) = Option.some (xs, rest) := by
  induction xs with
  | nil =>
    intro fuel rest hf
    cases fuel with
    | zero => omega
    | succ f => rfl
  | cons x xs ih =>
    intro fuel rest hf
    simp only [nodeCountList] at hf
    cases fuel with
    | zero => omega
    | succ f =>
      have hxpos := nodeCount_pos x
      have hx := hIH x (by simp) f (arrTailEnc xs rest) (by omega)
        (arrTailEnc_headNotDigit xs rest)
      have hxs := ih (fun z hz => hIH z (by simp [hz])) f rest (by omega)
      have h1 : parseArrayTail (f + 1) (arrTailEnc (x :: xs) rest)
          = match parseVal f (dumpChars x ++ arrTailEnc xs rest) with
            | Option.some (v, rest2) =>
              (parseArrayTail f rest2).map (fun r => (v :: r.1, r.2))
            | Option.none => Option.none := rfl
      rw [h1, hx]
      show (parseArrayTail f (arrTailEnc xs rest)).map (fun r => (x :: r.1, r.2)) = _
      rw [hxs]
      rfl

lemma parseArrayElems_dump (xs : List PyVal)
    (hIH : ∀ x ∈ xs, ∀ (fuel : Nat) (rest : List Char), nodeCount x ≤ fuel →
      headNotDigit rest → parseVal fuel (dumpChars x ++ rest) = Option.some (x, rest)) :
    ∀ (fuel : Nat) (rest : List Char), 1 + nodeCountList xs ≤ fuel →
      parseArrayElems fuel (dumpElems xs ++ ']' :: rest) = Option.some (xs, rest) := by
  intro fuel rest hf
  cases xs with
  | nil =>
    cases fuel with
    | zero => omega
    | succ f => rfl
  | cons x xs =>
    simp only [nodeCountList] at hf
    cases fuel with
    | zero => omega
    | succ f =>
      have hxpos := nodeCount_pos x
      rw [dumpElems_append xs x rest]
      obtain ⟨c, cs0, hc, hne⟩ := dumpChars_head x
      have hcond : ¬ ((dumpChars x ++ arrTailEnc xs rest).head? = Option.some ']') := by
        rw [hc]
        simp [hne]
      have h1 : parseArrayElems (f + 1) (dumpChars x ++ arrTailEnc xs rest)
          = match parseVal f (dumpChars x ++ arrTailEnc xs rest) with
            | Option.some (v, rest2) =>
              (parseArrayTail f rest2).map (fun r => (v :: r.1, r.2))
            | Option.none => Option.none := by
        simp only [parseArrayElems]
        rw [if_neg hcond]
      rw [h1, hIH x (by simp) f (arrTailEnc xs rest) (by omega)
        (arrTailEnc_headNotDigit xs rest)]
      show (parseArrayTail f (arrTailEnc xs rest)).map (fun r => (x :: r.1, r.2)) = _
      rw [parseArrayTail_dump xs (fun z hz => hIH z (by simp [hz])) f rest (by omega)]
      rfl

lemma parseMember_dump (k : String) (v : PyVal)
    (hv : ∀ (fuel : Nat) (rest : List Char), nodeCount v ≤ fuel → headNotDigit rest →
      parseVal fuel (dumpChars v ++ rest) = Option.some (v, rest)) :
    ∀ (fuel : Nat) (tail : List Char), 1 + nodeCount v ≤ fuel → headNotDigit tail →
      parseMember fuel (dumpStrChars k ++ ':' :: (dumpChars v ++ tail))
        = Option.some ((k, v), tail) := by
  intro fuel tail hf ht
  cases fuel with
  | zero => omega
  | succ f =>
    have hshape : dumpStrChars k ++ ':' :: (dumpChars v ++ tail)
        = '"' :: (escapeChars k.data ++ '"' :: (':' :: (dumpChars v ++ tail))) := by
      show ('"' :: escapeChars k.data ++ ['"']) ++ _ = _
      simp
    rw [hshape]
    have h2 := parseStringBody_escape k.data (':' :: (dumpChars v ++ tail))
    simp only [parseMember]
    rw [h2]
    have hval := hv f tail (by omega) ht
    simp [hval]

lemma parseMembersTail_dump (es : List (String × PyVal))
    (hIH : ∀ kv ∈ es, ∀ (fuel : Nat) (rest : List Char), nodeCount kv.2 ≤ fuel →
      headNotDigit rest → parseVal fuel (dumpChars kv.2 ++ rest) = Option.some (kv.2, rest)) :
    ∀ (fuel : Nat) (rest : List Char), 1 + nodeCountDict es ≤ fuel →
      parseMembersTail fuel (objTailEnc es rest) = Option.some (es, rest) := by
  induction es with
  | nil =>
    intro fuel rest hf
    cases fuel with
    | zero => omega
    | succ f => rfl
  | cons kv kvs ih =>
    intro fuel rest hf
    simp only [nodeCountDict] at hf
    cases fuel with
    | zero => omega
    | succ f =>
      have hm := parseMember_dump kv.1 kv.2 (hIH kv (by simp)) f (objTailEnc kvs rest)
        (by omega) (objTailEnc_headNotDigit kvs rest)
      have hrest := ih (fun z hz => hIH z (by simp [hz])) f rest (by omega)
      have h1 : parseMembersTail (f + 1) (objTailEnc (kv :: kvs) rest)
          = match parseMember f (dumpStrChars kv.1 ++ ':' :: (dumpChars kv.2 ++ objTailEnc kvs rest)) with
            | Option.some (kv2, rest2) =>
              (parseMembersTail f rest2).map (fun r => (kv2 :: r.1, r.2))
            | Option.none => Option.none := rfl
      rw [h1, hm]
      show (parseMembersTail f (objTailEnc kvs rest)).map (fun r => ((kv.1, kv.2) :: r.1, r.2)) = _
      rw [hrest]
      rfl

lemma parseObjMembers_dump (es : List (String × PyVal))
    (hIH : ∀ kv ∈ es, ∀ (fuel : Nat) (rest : List Char), nodeCount kv.2 ≤ fuel →
      headNotDigit rest → parseVal fuel (dumpChars kv.2 ++ rest) = Option.some (kv.2, rest)) :
    ∀ (fuel : Nat) (rest : List Char), 1 + nodeCountDict es ≤ fuel →
      parseObjMembers fuel (dumpMembers es ++ '\x7d' :: rest) = Option.some (es, rest) := by
  intro fuel rest hf
  cases es with
  | nil =>
    cases fuel with
    | zero => omega
    | succ f => rfl
  | cons kv kvs =>
    simp only [nodeCountDict] at hf
    cases fuel with
    | zero => omega
    | succ f =>
      rw [dumpMembers_append kvs kv rest]
      have hcond : ¬ ((dumpStrChars kv.1 ++ ':' :: (dumpChars kv.2 ++ objTailEnc kvs rest)).head?
          = Option.some '\x7d') := by
        show ¬ ((('"' :: escapeChars kv.1.data ++ ['"']) ++ _).head? = _)
        simp
      have h1 : parseObjMembers (f + 1)
            (dumpStrChars kv.1 ++ ':' :: (dumpChars kv.2 ++ objTailEnc kvs rest))
          = match parseMember f (dumpStrChars kv.1 ++ ':' :: (dumpChars kv.2 ++ objTailEnc kvs rest)) with
            | Option.some (kv2, rest2) =>
              (parseMembersTail f rest2).map (fun r => (kv2 :: r.1, r.2))
            | Option.none => Option.none := by
        simp only [parseObjMembers]
        rw [if_neg hcond]
      rw [h1, parseMember_dump kv.1 kv.2 (hIH kv (by simp)) f (objTailEnc kvs rest)
        (by omega) (objTailEnc_headNotDigit kvs rest)]
      show (parseMembersTail f (objTailEnc kvs rest)).map (fun r => ((kv.1, kv.2) :: r.1, r.2)) = _
      rw [parseMembersTail_dump kvs (fun z hz => hIH z (by simp [hz])) f rest (by omega)]
      rfl

/-- The reader inverts the printer: parsing `dumpChars v ++ rest` yields
`v` and leaves `rest`, for any fuel at least `nodeCount v` and any `rest`
that does not start with a digit. -/
lemma parse_dump_val : ∀ v : PyVal, ∀ (fuel : Nat) (rest : List Char),
    nodeCount v ≤ fuel → headNotDigit rest →
    parseVal fuel (dumpChars v ++ rest) = Option.some (v, rest) := by
  intro v
  induction v using PyVal.inductOn with
  | hnone =>
    intro fuel rest hf _
    cases fuel with
    | zero => simp [nodeCount] at hf
    | succ f => rfl
  | hbool b =>
    intro fuel rest hf _
    cases fuel with
    | zero => simp [nodeCount] at hf
    | succ f => cases b <;> rfl
  | hstr s =>
    intro fuel rest hf _
    cases fuel with
    | zero => simp [nodeCount] at hf
    | succ f =>
      have hshape : dumpChars (.str s) ++ rest
          = '"' :: (escapeChars s.data ++ '"' :: rest) := by
        show ('"' :: escapeChars s.data ++ ['"']) ++ rest = _
        simp
      rw [hshape]
      have h1 : parseVal (f + 1) ('"' :: (escapeChars s.data ++ '"' :: rest))
          = (parseStringBody (escapeChars s.data ++ '"' :: rest)).map
              (fun r => (.str (String.mk r.1), r.2)) := rfl
      rw [h1, parseStringBody_escape s.data rest]
      rfl
  | hint i =>
    intro fuel rest hf hrest
    cases fuel with
    | zero => simp [nodeCount] at hf
    | succ f =>
      rcases hnc : natChars i.natAbs with _ | ⟨d, ds⟩
      · exact absurd hnc (natChars_ne_nil _)
      have hd : d.isDigit = true :=
        mem_natChars_isDigit _ d (by rw [hnc]; exact List.mem_cons_self d ds)
      have hspec := isDigit_ne_special d hd
      have hpd : parseDigitsAux (natChars i.natAbs ++ rest) 0 = (i.natAbs, rest) := by
        rw [parseDigitsAux_append _ _ 0 (fun c hc => mem_natChars_isDigit _ c hc) hrest,
          natChars_foldl]
      by_cases hi : i < 0
      · have hshape : dumpChars (.int i) ++ rest = '-' :: (natChars i.natAbs ++ rest) := by
          show intChars i ++ rest = _
          unfold intChars
          rw [if_pos hi]
          rfl
        rw [hshape]
        have h1 : parseVal (f + 1) ('-' :: (natChars i.natAbs ++ rest))
            = if ((natChars i.natAbs ++ rest).head?.map Char.isDigit).getD false then
                Option.some (.int (-((parseDigitsAux (natChars i.natAbs ++ rest) 0).1 : Int)),
                  (parseDigitsAux (natChars i.natAbs ++ rest) 0).2)
              else Option.none := rfl
        have hcond : ((natChars i.natAbs ++ rest).head?.map Char.isDigit).getD false = true := by
          rw [hnc]
          simp [hd]
        rw [h1, if_pos hcond, hpd]
        have hcast : -((i.natAbs : Nat) : Int) = i := by omega
        rw [hcast]
      · have hshape : dumpChars (.int i) ++ rest = d :: (ds ++ rest) := by
          show intChars i ++ rest = _
          unfold intChars
          rw [if_neg hi, hnc]
          rfl
        rw [hshape]
        have h1 : parseVal (f + 1) (d :: (ds ++ rest))
            = if d.isDigit then
                Option.some (.int ((parseDigitsAux (d :: (ds ++ rest)) 0).1 : Int),
                  (parseDigitsAux (d :: (ds ++ rest)) 0).2)
              else Option.none := by
          simp only [parseVal]
          rw [if_neg hspec.1, if_neg hspec.2.1, if_neg hspec.2.2.1, if_neg hspec.2.2.2.1,
            if_neg hspec.2.2.2.2.1, if_neg hspec.2.2.2.2.2.1, if_neg hspec.2.2.2.2.2.2.1]
        have hback : d :: (ds ++ rest) = natChars i.natAbs ++ rest := by
          rw [hnc]
          rfl
        rw [h1, if_pos hd, hback, hpd]
        have hcast : ((i.natAbs : Nat) : Int) = i := by omega
        rw [hcast]
  | hlist xs hIH =>
    intro fuel rest hf _
    cases fuel with
    | zero => simp [nodeCount] at hf
    | succ f =>
      have hb : 1 + nodeCountList xs ≤ f := by
        simp only [nodeCount] at hf
        omega
      have hshape : dumpChars (.list xs) ++ rest = '[' :: (dumpElems xs ++ ']' :: rest) := by
        show ('[' :: dumpElems xs ++ [']']) ++ rest = _
        simp
      rw [hshape]
      have h1 : parseVal (f + 1) ('[' :: (dumpElems xs ++ ']' :: rest))
          = (parseArrayElems f (dumpElems xs ++ ']' :: rest)).map
              (fun r => (.list r.1, r.2)) := rfl
      rw [h1, parseArrayElems_dump xs hIH f rest hb]
      rfl
  | hdict es hIH =>
    intro fuel rest hf _
    cases fuel with
    | zero => simp [nodeCount] at hf
    | succ f =>
      have hb : 1 + nodeCountDict es ≤ f := by
        simp only [nodeCount] at hf
        omega
      have hshape : dumpChars (.dict es) ++ rest
          = '\x7b' :: (dumpMembers es ++ '\x7d' :: rest) := by
        show ('\x7b' :: dumpMembers es ++ ['\x7d']) ++ rest = _
        simp
      rw [hshape]
      have h1 : parseVal (f + 1) ('\x7b' :: (dumpMembers es ++ '\x7d' :: rest))
          = (parseObjMembers f (dumpMembers es ++ '\x7d' :: rest)).map
              (fun r => (.dict r.1, r.2)) := rfl
      rw [h1, parseObjMembers_dump es hIH f rest hb]
      rfl

lemma nodeCountList_le (xs : List PyVal)
    (h : ∀ x ∈ xs, nodeCount x ≤ (dumpChars x).length + 1) :
    nodeCountList xs ≤ (dumpElems xs).length + 1 := by
  induction xs with
  | nil => simp [nodeCountList]
  | cons x xs ih =>
    cases xs with
    | nil =>
      have := h x (by simp)
      simp only [nodeCountList]
      have h0 : dumpElems [x] = dumpChars x := rfl
      rw [h0]
      omega
    | cons y ys =>
      have hx := h x (by simp)
      have hrest := ih (fun z hz => h z (by simp [hz]))
      have h0 : dumpElems (x :: y :: ys) = dumpChars x ++ ',' :: dumpElems (y :: ys) := rfl
      simp only [nodeCountList] at hrest ⊢
      rw [h0]
      simp only [List.length_append, List.length_cons]
      omega

lemma nodeCountDict_le (es : List (String × PyVal))
    (h : ∀ kv ∈ es, nodeCount kv.2 ≤ (dumpChars kv.2).length + 1) :
    nodeCountDict es ≤ (dumpMembers es).length + 1 := by
  induction es with
  | nil => simp [nodeCountDict]
  | cons kv kvs ih =>
    cases kvs with
    | nil =>
      have := h kv (by simp)
      simp only [nodeCountDict, nodeCountDict.eq_1]
      have h0 : dumpMembers [kv] = dumpStrChars kv.1 ++ ':' :: dumpChars kv.2 := rfl
      rw [h0]
      simp only [List.length_append, List.length_cons]
      omega
    | cons lw ks =>
      have hx := h kv (by simp)
      have hrest := ih (fun z hz => h z (by simp [hz]))
      have h0 : dumpMembers (kv :: lw :: ks)
          = dumpStrChars kv.1 ++ ':' :: dumpChars kv.2 ++ ',' :: dumpMembers (lw :: ks) := rfl
      simp only [nodeCountDict] at hrest ⊢
      rw [h0]
      simp only [List.length_append, List.length_cons]
      omega

lemma nodeCount_le_dump : ∀ v : PyVal, nodeCount v ≤ (dumpChars v).length + 1 := by
  intro v
  induction v using PyVal.inductOn with
  | hnone => simp [nodeCount, dumpChars]
  | hbool b => cases b <;> simp [nodeCount, dumpChars]
  | hint i => simp [nodeCount]
  | hstr s => simp [nodeCount]
  | hlist xs hIH =>
    have := nodeCountList_le xs hIH
    have h0 : dumpChars (.list xs) = '[' :: dumpElems xs ++ [']'] := rfl
    simp only [nodeCount, h0]
    simp only [List.length_append, List.length_cons, List.length_singleton]
    omega
  | hdict es hIH =>
    have := nodeCountDict_le es hIH
    have h0 : dumpChars (.dict es) = '\x7b' :: dumpMembers es ++ ['\x7d'] := rfl
    simp only [nodeCount, h0]
    simp only [List.length_append, List.length_cons, List.length_singleton]
    omega

/-- The modelled JSON codec round-trips every value. -/
lemma jsonLoads_dumps (v : PyVal) : jsonLoads (jsonDumps v) = Option.some v := by
  have hlen : nodeCount v ≤ (dumpChars v).length + 1 := nodeCount_le_dump v
  have h := parse_dump_val v ((dumpChars v).length + 1) [] hlen headNotDigit_nil
  rw [List.append_nil] at h
  show (match parseVal ((String.mk (dumpChars v)).data.length + 1) (String.mk (dumpChars v)).data with
    | Option.some (w, []) => Option.some w
    | _ => Option.none) = Option.some v
  have hdata : (String.mk (dumpChars v)).data = dumpChars v := rfl
  rw [hdata, h]

/-! ## `DocumentProcessor.normalize_blocks` (lines 235-333)

The default-constructed processor has `self.logger = None`, so all logging
branches are inert; the embedding models only the data flow. -/

/-- `v` is a Python list. -/
def PyVal.isList : PyVal → Bool
  | .list _ => true
  | _ => false

/-- The wrapped-envelope recovery attempt of `normalize_blocks` on the
string under `"text"`: direct `json.loads` first (successful only when the
result is a list); on a decode error, bracket-matching extraction followed
by a second parse (again successful only for a list).  `none` means every
attempt failed and the caller falls through to returning its input. -/
def envelopeParse (tc : String) : Option (List PyVal) :=
  match jsonLoads tc with
  | Option.some (.list parsed) => Option.some parsed
  | Option.some _ => Option.none
  | Option.none =>
    match extractJsonFromText tc with
    | Option.some jp =>
      match jsonLoads jp with
      | Option.some (.list parsed) => Option.some parsed
      | _ => Option.none
    | Option.none => Option.none

/-- `DocumentProcessor.normalize_blocks`: unwrap the single-element
`[{"text": <json str>}]` envelope when a block list can be recovered from
it; otherwise return list input unchanged and non-list input as `[]`. -/
def normalizeBlocks (raw : PyVal) : List PyVal :=
  match raw with
  | .list [first] =>
    (match first with
     | .dict d =>
       (match dictGet d "text" with
        | Option.some (.str tc) =>
          (match envelopeParse tc with
           | Option.some parsed => parsed
           | Option.none => [first])
        | _ => [first])
     | _ => [first])
  | .list blocks => blocks
  | _ => []

/-- C2: for every list `bs` of block dicts, `normalize_blocks` applied to
the one-element wrapper `[{"text": json_encode(bs)}]` returns the original
blocks in their original order (stated for every list of values). -/
theorem c2_envelope_round_trip (bs : List PyVal) :
    normalizeBlocks (.list [.dict [("text", .str (jsonDumps (.list bs)))]]) = bs := by
  have h0 : normalizeBlocks (.list [.dict [("text", .str (jsonDumps (.list bs)))]])
      = (match envelopeParse (jsonDumps (.list bs)) with
         | Option.some parsed => parsed
         | Option.none => [.dict [("text", .str (jsonDumps (.list bs)))]]) := rfl
  rw [h0]
  simp only [envelopeParse]
  rw [jsonLoads_dumps (.list bs)]

/-- The single block dict used to refute C5 as stated: a flat array of one
block dict whose `text` payload happens to be the string `"[]"`. -/
def c5Block : PyVal :=
  .dict [("block_id", .str "a"), ("block_type", .int 2), ("text", .str "[]")]

/-- C5 counterexample: `[c5Block]` is already a flat array of block dicts
(its element carries `block_id` and `block_type`), yet `normalize_blocks`
does not return it unchanged — it re-parses the `text` string and returns
`[]`. -/
theorem c5_counterexample :
    normalizeBlocks (.list [c5Block]) = [] ∧ normalizeBlocks (.list [c5Block]) ≠ [c5Block] := by
  constructor
  · rfl
  · decide

/-- The whitespace characters `json.loads` skips around tokens (the JSON
spec's `ws`: space, tab, newline, carriage return). -/
def jsonWsChar (c : Char) : Bool :=
  c = ' ' || c = '\t' || c = '\n' || c = '\r'

/-- Whether a value has the only shape from which `normalize_blocks` can
possibly recover a replacement list: a dict whose `text` entry is a string
whose first character after leading JSON whitespace is `[`.  A top-level
JSON array literal must begin with `[` after whitespace, and the bracket
extraction demands a literal leading `[`, so no text outside this shape is
ever re-parsed into a list — by CPython's `json.loads` or by the model. -/
def envelopeCandidate (b : PyVal) : Bool :=
  match b with
  | .dict d =>
    match dictGet d "text" with
    | Option.some (.str tc) =>
      (match tc.data.dropWhile jsonWsChar with
       | '[' :: _ => true
       | _ => false)
    | _ => false
  | _ => false

/-- The reader yields a list value only from a `[`-headed input. -/
lemma parseVal_list_head (f : Nat) (cs : List Char) (xs : List PyVal) (rest : List Char)
    (h : parseVal f cs = Option.some (.list xs, rest)) : ∃ t, cs = '[' :: t := by
  match f, cs with
  | 0, _ => exact absurd h (by simp [parseVal])
  | f + 1, [] => exact absurd h (by simp [parseVal])
  | f + 1, c :: cs0 =>
    simp only [parseVal] at h
    by_cases h1 : c = 'n'
    · rw [if_pos h1] at h
      exfalso
      rcases he : expectChars ['u', 'l', 'l'] cs0 with _ | r <;> rw [he] at h <;> simp at h
    · rw [if_neg h1] at h
      by_cases h2 : c = 't'
      · rw [if_pos h2] at h
        exfalso
        rcases he : expectChars ['r', 'u', 'e'] cs0 with _ | r <;> rw [he] at h <;> simp at h
      · rw [if_neg h2] at h
        by_cases h3 : c = 'f'
        · rw [if_pos h3] at h
          exfalso
          rcases he : expectChars ['a', 'l', 's', 'e'] cs0 with _ | r <;> rw [he] at h <;>
            simp at h
        · rw [if_neg h3] at h
          by_cases h4 : c = '"'
          · rw [if_pos h4] at h
            exfalso
            rcases he : parseStringBody cs0 with _ | r <;> rw [he] at h <;> simp at h
          · rw [if_neg h4] at h
            by_cases h5 : c = '['
            · exact ⟨cs0, by rw [h5]⟩
            · rw [if_neg h5] at h
              exfalso
              by_cases h6 : c = '\x7b'
              · rw [if_pos h6] at h
                rcases he : parseObjMembers f cs0 with _ | r <;> rw [he] at h <;> simp at h
              · rw [if_neg h6] at h
                by_cases h7 : c = '-'
                · rw [if_pos h7] at h
                  by_cases h8 : (cs0.head?.map Char.isDigit).getD false
                  · rw [if_pos h8] at h
                    simp at h
                  · rw [if_neg h8] at h
                    simp at h
                · rw [if_neg h7] at h
                  by_cases h9 : c.isDigit
                  · rw [if_pos h9] at h
                    simp at h
                  · rw [if_neg h9] at h
                    simp at h

/-- `jsonLoads` yields a list only from a `[`-headed string. -/
lemma jsonLoads_list_head (tc : String) (xs : List PyVal)
    (h : jsonLoads tc = Option.some (.list xs)) : ∃ t, tc.data = '[' :: t := by
  unfold jsonLoads at h
  rcases hp : parseVal (tc.data.length + 1) tc.data with _ | pr
  · rw [hp] at h
    simp at h
  · rw [hp] at h
    obtain ⟨v, rest⟩ := pr
    rcases rest with _ | ⟨c, t⟩
    · simp only [Option.some.injEq] at h
      exact parseVal_list_head _ _ xs [] (h ▸ hp)
    · simp at h

/-- Bracket extraction demands a literal leading `[`. -/
lemma extractJsonFromText_head (tc : String) (jp : String)
    (h : extractJsonFromText tc = Option.some jp) : tc.data.head? = Option.some '[' := by
  unfold extractJsonFromText at h
  by_cases h1 : tc.data.head? = Option.some '['
  · exact h1
  · rw [if_neg h1] at h
    exact absurd h (by simp)

/-- When the text's first non-whitespace character is not `[`, every
recovery attempt of `normalize_blocks` fails. -/
lemma envelopeParse_not_candidate (tc : String)
    (h : (match tc.data.dropWhile jsonWsChar with
          | '[' :: _ => true
          | _ => false) = false) :
    envelopeParse tc = Option.none := by
  have hhead : ∀ t, tc.data ≠ '[' :: t := by
    intro t ht
    rw [ht] at h
    simp [List.dropWhile, jsonWsChar] at h
  unfold envelopeParse
  rcases hj : jsonLoads tc with _ | v
  · rcases he : extractJsonFromText tc with _ | jp
    · rfl
    · exfalso
      have h2 := extractJsonFromText_head tc jp he
      rcases hd : tc.data with _ | ⟨c, t⟩
      · rw [hd] at h2
        simp at h2
      · rw [hd] at h2
        simp only [List.head?_cons, Option.some.injEq] at h2
        exact hhead t (by rw [hd, h2])
  · rcases v with _ | b0 | n | s | xs | es
    · rfl
    · rfl
    · rfl
    · rfl
    · exfalso
      obtain ⟨t, ht⟩ := jsonLoads_list_head tc xs hj
      exact hhead t ht
    · rfl

/-- C5 (amended): `normalize_blocks` is the identity on every already-flat
block array whenever the envelope re-parse cannot fire — whenever the array
has length other than one, or its sole element is not a dict carrying a
string `text` field, or that text's first character after leading JSON
whitespace is not `[` (then neither a full `json.loads` nor bracket
extraction can ever produce a replacement list).  A length-one array whose
sole dict element does carry such a `[`-leading text may instead be
re-parsed, as the counterexample shows. -/
theorem c5_amended_envelope_idempotence (bs : List PyVal)
    (h : bs.length = 1 → envelopeCandidate (bs.headD .none) = false) :
    normalizeBlocks (.list bs) = bs := by
  rcases bs with _ | ⟨b, _ | ⟨b2, rest⟩⟩
  · rfl
  · have hb : envelopeCandidate b = false := h (by simp)
    cases b with
    | dict d =>
      have h0 : normalizeBlocks (.list [PyVal.dict d])
          = (match dictGet d "text" with
             | Option.some (.str tc) =>
               (match envelopeParse tc with
                | Option.some parsed => parsed
                | Option.none => [PyVal.dict d])
             | _ => [PyVal.dict d]) := rfl
      rw [h0]
      simp only [envelopeCandidate, List.headD] at hb
      rcases hd : dictGet d "text" with _ | v
      · rfl
      · rcases v with _ | b0 | n | tc | xs | es
        · rfl
        · rfl
        · rfl
        · rw [hd] at hb
          show (match envelopeParse tc with
             | Option.some parsed => parsed
             | Option.none => [PyVal.dict d]) = [PyVal.dict d]
          rw [envelopeParse_not_candidate tc hb]
        · rfl
        · rfl
    | none => rfl
    | bool b0 => rfl
    | int n => rfl
    | str s => rfl
    | list xs => rfl
  · rfl

/-- C5 amended, witness: a flat one-block array without an envelope-style
`text` string is returned unchanged. -/
theorem c5_amended_witness :
    normalizeBlocks (.list [.dict [("block_id", .str "a"), ("block_type", .int 2)]])
      = [.dict [("block_id", .str "a"), ("block_type", .int 2)]] :=
  c5_amended_envelope_idempotence _ (by decide)

/-- C10: when the single wrapped element's `text` string parses as valid
JSON that is not a list, `normalize_blocks` returns the original
one-element list unchanged (bracket extraction is attempted only on a
decode error, and a successful non-list parse falls through to the
return-as-is path). -/
theorem c10_nonlist_parse_returns_input (d : List (String × PyVal)) (s : String) (v : PyVal)
    (h1 : dictGet d "text" = Option.some (.str s))
    (h2 : jsonLoads s = Option.some v)
    (h3 : v.isList = false) :
    normalizeBlocks (.list [.dict d]) = [.dict d] := by
  have h0 : normalizeBlocks (.list [PyVal.dict d])
      = (match dictGet d "text" with
         | Option.some (.str tc) =>
           (match envelopeParse tc with
            | Option.some parsed => parsed
            | Option.none => [PyVal.dict d])
         | _ => [PyVal.dict d]) := rfl
  rw [h0, h1]
  have hp : envelopeParse s = Option.none := by
    simp only [envelopeParse]
    rw [h2]
    cases v with
    | list xs => simp [PyVal.isList] at h3
    | none => rfl
    | bool b => rfl
    | int n => rfl
    | str s2 => rfl
    | dict es => rfl
  show (match envelopeParse s with
     | Option.some parsed => parsed
     | Option.none => [PyVal.dict d]) = [PyVal.dict d]
  rw [hp]

/-- C10 witness: `[{"text": "{}"}]` — the text parses as a JSON object, and
normalization returns the wrapper unchanged. -/
theorem c10_witness :
    normalizeBlocks (.list [.dict [("text", .str "\x7b\x7d")]])
      = [.dict [("text", .str "\x7b\x7d")]] :=
  c10_nonlist_parse_returns_input [("text", .str "\x7b\x7d")] "\x7b\x7d" (.dict [])
    (by decide) rfl rfl

/-! ## `DocumentProcessor._extract_text_with_styles` (lines 405-479) -/

/-- `sep.join(parts)` for nonempty-part joins. -/
def strIntercalate (sep : String) : List String → String
  | [] => ""
  | [x] => x
  | x :: y :: xs => x ++ sep ++ strIntercalate sep (y :: xs)

/-- `"".join(parts)`. -/
def strConcat (parts : List String) : String :=
  parts.foldl (fun a b => a ++ b) ""

/-- The link wrap and the fixed style-wrap cascade of
`_extract_text_with_styles` applied to one text run's content:
strikethrough, underline, italic, bold, inline code, then the color span. -/
def styleWrapped (textRun : PyVal) (content0 : PyVal) : String :=
  let link := pyGetD textRun "link" .none
  let c1 : PyVal :=
    if pyTruthy link then .str ("[" ++ pyStr content0 ++ "](" ++ pyStr link ++ ")") else content0
  let style := pyGetD textRun "text_element_style" (.dict [])
  let c2 : PyVal :=
    if pyTruthy (pyGetD style "strikethrough" .none) then .str ("~~" ++ pyStr c1 ++ "~~") else c1
  let c3 : PyVal :=
    if pyTruthy (pyGetD style "underline" .none) then .str ("<u>" ++ pyStr c2 ++ "</u>") else c2
  let c4 : PyVal :=
    if pyTruthy (pyGetD style "italic" .none) then .str ("*" ++ pyStr c3 ++ "*") else c3
  let c5 : PyVal :=
    if pyTruthy (pyGetD style "bold" .none) then .str ("**" ++ pyStr c4 ++ "**") else c4
  let c6 : PyVal :=
    if pyTruthy (pyGetD style "code" .none) then .str ("`" ++ pyStr c5 ++ "`") else c5
  let color := pyGetD style "color" .none
  let bg := pyGetD style "background" .none
  if pyTruthy color || pyTruthy bg then
    let colorStyle := if pyTruthy color then "color:" ++ pyStr color else ""
    let bgStyle := if pyTruthy bg then "background-color:" ++ pyStr bg else ""
    let styles := strIntercalate ";" ([colorStyle, bgStyle].filter (fun s => s ≠ ""))
    "<span style=\"" ++ styles ++ "\">" ++ pyStr c6 ++ "</span>"
  else pyStr c6

/-- One element's contribution to the styled text.  The Python loop tests
`not content` before `inline_component`; the conjunctions here list the
component test first (the tests are pure, so the order of the `and` does
not change the value). -/
def styledPart (elem : PyVal) : String :=
  let textRun := pyGetD elem "text_run" (.dict [])
  let content := pyGetD textRun "content" (.str "")
  let inlineComponent := pyGetD elem "inline_component" (.dict [])
  if pyTruthy inlineComponent ∧ ¬ pyTruthy content
      ∧ pyGetD inlineComponent "type" (.str "") = .str "mention_doc"
      ∧ pyTruthy (pyGetD inlineComponent "raw_url" (.str "")) then
    "[" ++ pyStr (pyGetD inlineComponent "title" content) ++ "]("
      ++ pyStr (pyGetD inlineComponent "raw_url" (.str "")) ++ ")"
  else if pyTruthy inlineComponent ∧ ¬ pyTruthy content
      ∧ ¬ (pyGetD inlineComponent "type" (.str "") = .str "mention_doc")
      ∧ pyGetD inlineComponent "type" (.str "") = .str "user" then
    "`" ++ pyStr (pyGetD textRun "content" (.str "@user")) ++ "`"
  else styleWrapped textRun content

/-- `DocumentProcessor._extract_text_with_styles`: resolve the element list
from `elements` or `textElements`, render each element, concatenate. -/
def extractTextWithStyles (d : List (String × PyVal)) : String :=
  let e1 := dictGetD d "elements" .none
  let elements := if pyTruthy e1 then e1 else dictGetD d "textElements" (.list [])
  if ¬ pyTruthy elements then ""
  else strConcat ((asList elements).map styledPart)

/-- C9: a text run flagged bold, italic and inline-code (no other styles,
no link, no color) renders as `***content***` surrounded by backticks; and
with all five style flags set the wraps nest innermost-to-outermost in the
fixed order strikethrough, underline, italic, bold, inline-code. -/
theorem c9_style_nesting_order (content : String) :
    extractTextWithStyles
        [("elements", .list [.dict [("text_run", .dict [("content", .str content),
          ("text_element_style", .dict [("bold", .bool true), ("italic", .bool true),
            ("code", .bool true)])])]])]
      = "`***" ++ content ++ "***`" ∧
    extractTextWithStyles
        [("elements", .list [.dict [("text_run", .dict [("content", .str content),
          ("text_element_style", .dict [("strikethrough", .bool true),
            ("underline", .bool true), ("italic", .bool true), ("bold", .bool true),
            ("code", .bool true)])])]])]
      = "`***<u>~~" ++ content ++ "~~</u>***`" := by
  constructor
  · have h1 : extractTextWithStyles
        [("elements", .list [.dict [("text_run", .dict [("content", .str content),
          ("text_element_style", .dict [("bold", .bool true), ("italic", .bool true),
            ("code", .bool true)])])]])]
        = "`" ++ ("**" ++ (("*" ++ content) ++ "*") ++ "**") ++ "`" := rfl
    rw [h1, show ("`***" : String) = ("`" ++ "**") ++ "*" from rfl,
      show ("***`" : String) = ("*" ++ "**") ++ "`" from rfl]
    apply String.ext
    simp [List.append_assoc]
  · have h1 : extractTextWithStyles
        [("elements", .list [.dict [("text_run", .dict [("content", .str content),
          ("text_element_style", .dict [("strikethrough", .bool true),
            ("underline", .bool true), ("italic", .bool true), ("bold", .bool true),
            ("code", .bool true)])])]])]
        = "`" ++ ("**" ++ ("*" ++ ("<u>" ++ (("~~" ++ content) ++ "~~") ++ "</u>") ++ "*")
            ++ "**") ++ "`" := rfl
    rw [h1, show ("`***<u>~~" : String) = (((("`" ++ "**") ++ "*") ++ "<u>") ++ "~~") from rfl,
      show ("~~</u>***`" : String) = (((("~~" ++ "</u>") ++ "*") ++ "**") ++ "`") from rfl]
    apply String.ext
    simp [List.append_assoc]

/-! ## `DocumentProcessor.iter_blocks` (lines 508-677) -/

/-- The `BLOCK_TYPES` mapping (lines 67-115). -/
def blockTypes (n : Int) : Option String :=
  match n with
  | 1 => Option.some "page"
  | 2 => Option.some "text"
  | 3 => Option.some "heading1"
  | 4 => Option.some "heading2"
  | 5 => Option.some "heading3"
  | 6 => Option.some "heading4"
  | 7 => Option.some "heading5"
  | 8 => Option.some "heading6"
  | 9 => Option.some "heading7"
  | 10 => Option.some "heading8"
  | 11 => Option.some "heading9"
  | 12 => Option.some "bullet"
  | 13 => Option.some "ordered"
  | 14 => Option.some "code"
  | 15 => Option.some "quote"
  | 16 => Option.some "todo"
  | 17 => Option.some "divider"
  | 18 => Option.some "image"
  | 19 => Option.some "table"
  | 20 => Option.some "callout"
  | 21 => Option.some "file"
  | 22 => Option.some "video"
  | 23 => Option.some "bookmark"
  | 24 => Option.some "view"
  | 25 => Option.some "bitable"
  | 26 => Option.some "mindnote"
  | 27 => Option.some "docx"
  | 28 => Option.some "sheet"
  | 29 => Option.some "folder"
  | 30 => Option.some "wiki"
  | 31 => Option.some "table"
  | 32 => Option.some "table_cell"
  | 33 => Option.some "calendar"
  | 34 => Option.some "group"
  | 35 => Option.some "chart"
  | 36 => Option.some "poll"
  | 37 => Option.some "form"
  | 38 => Option.some "flow"
  | 39 => Option.some "multi_person"
  | 40 => Option.some "bullet_sub"
  | 41 => Option.some "ordered_sub"
  | 42 => Option.some "todo_sub"
  | 43 => Option.some "whiteboard"
  | 44 => Option.some "chat"
  | 45 => Option.some "link_card"
  | 46 => Option.some "audio"
  | _ => Option.none

/-- `BLOCK_TYPES.get(block_type, f"unknown_{block_type}")`.  The dict is
keyed by ints; non-int keys take the unknown branch. -/
def blockTypeName (bt : PyVal) : String :=
  match bt with
  | .int n => (blockTypes n).getD ("unknown_" ++ String.mk (intChars n))
  | other => "unknown_" ++ pyStr other

/-- The simplified block record (`BlockInfo` dataclass, lines 40-52).
Fields that Python does not constrain to a type are kept as `PyVal`. -/
structure BlockInfo where
  block_id : PyVal
  block_type : PyVal
  block_type_name : String
  text : PyVal
  level : PyVal
  children_count : Nat
  inline_text : PyVal
  checked : PyVal
deriving DecidableEq

/-- `extract_from_data` (lines 574-601): plain text (skipping struck-through
runs) and, for the inline variant, the styled text. -/
def extractFromData (data : PyVal) (forInline : Bool) : String × String :=
  match data with
  | .dict d =>
    if ¬ pyTruthy (.dict d) then ("", "")
    else
      let e1 := dictGetD d "elements" .none
      let elements := if pyTruthy e1 then e1 else dictGetD d "textElements" (.list [])
      if ¬ pyTruthy elements then ("", "")
      else
        let plain := strConcat ((asList elements).filterMap (fun elem =>
          let textRun := pyGetD elem "text_run" (.dict [])
          let style := pyGetD textRun "text_element_style" (.dict [])
          if pyTruthy (pyGetD style "strikethrough" .none) then Option.none
          else Option.some (pyStr (pyGetD textRun "content" (.str "")))))
        if forInline then (plain, extractTextWithStyles d) else (plain, "")
  | _ => ("", "")

/-- The nine heading payload keys probed in order (line 615). -/
def headingKeys : List String :=
  ["heading1", "heading2", "heading3", "heading4", "heading5", "heading6",
   "heading7", "heading8", "heading9"]

/-- The loop body of `iter_blocks.traverse` for one dict block (lines
555-671): text/inline-text extraction with the fixed field precedence,
heading level, children count and the todo checked state. -/
def mkBlockInfo (b : List (String × PyVal)) : BlockInfo :=
  let blockId := dictGetD b "block_id" (.str "")
  let blockType := dictGetD b "block_type" (.int 0)
  let typeName := blockTypeName blockType
  let p1 : PyVal × PyVal :=
    match dictGet b "text" with
    | Option.some tv =>
      if pyTruthy tv then
        match tv with
        | .str s => (.str s, .str s)
        | .dict d =>
          let pr := extractFromData (.dict d) true
          (.str pr.1, if pr.2 ≠ "" then .str pr.2 else .str pr.1)
        | _ => (.str "", .str "")
      else (.str "", .str "")
    | Option.none => (.str "", .str "")
  let p2 : PyVal × PyVal :=
    match headingKeys.findSome? (fun hk =>
        match dictGet b hk with
        | Option.some (.dict hd) => Option.some hd
        | _ => Option.none) with
    | Option.some hd =>
      let pr := extractFromData (.dict hd) true
      (if pr.1 ≠ "" ∧ ¬ pyTruthy p1.1 then .str pr.1 else p1.1,
       if pr.2 ≠ "" ∧ ¬ pyTruthy p1.2 then .str pr.2 else p1.2)
    | Option.none => p1
  let p3 : PyVal × PyVal :=
    match dictGet b "code" with
    | Option.some (.dict cd) =>
      let codeText := dictGetD cd "code" (.str "")
      if pyTruthy codeText ∧ ¬ pyTruthy p2.1 then (codeText, codeText) else p2
    | _ => p2
  let p4 : PyVal × PyVal × PyVal :=
    match dictGet b "bullet" with
    | Option.some (.dict bd) =>
      let pr := extractFromData (.dict bd) true
      (if pr.1 ≠ "" ∧ ¬ pyTruthy p3.1 then .str pr.1 else p3.1,
       if pr.2 ≠ "" ∧ ¬ pyTruthy p3.2 then .str pr.2 else p3.2,
       if blockType = .int 16 then
         pyGetD (dictGetD b "todo" (.dict [])) "done" (.bool false)
       else .bool false)
    | _ => (p3.1, p3.2, .bool false)
  let level : PyVal :=
    match blockType with
    | .int n => if 3 ≤ n ∧ n ≤ 11 then .int (n - 2) else .none
    | _ => .none
  let children := dictGetD b "children" (.list [])
  let childrenCount := if pyTruthy children then pyLen children else 0
  { block_id := blockId
    block_type := blockType
    block_type_name := typeName
    text := p4.1
    level := level
    children_count := childrenCount
    inline_text := if pyTruthy p4.2.1 then p4.2.1 else p4.1
    checked := p4.2.2 }

/-- `add_descendants` (lines 534-545): collect the ids of all transitive
children of a table-cell block, resolving string ids against the top-level
block list.  Fueled: the Python recursion has no cycle guard and would not
terminate on a cyclic id graph; with fuel `|blocks| + 1` every acyclic
resolution chain is fully followed. -/
def addDescendants (normalized : List PyVal) : Nat → List (String × PyVal) → List PyVal
  | 0, _ => []
  | fuel + 1, bd =>
    (asList (dictGetD bd "children" (.list []))).flatMap (fun childId =>
      match childId with
      | .str cid =>
        PyVal.str cid ::
          (match normalized.find? (fun cb => pyGetD cb "block_id" .none = .str cid) with
           | Option.some (.dict cbd) => addDescendants normalized fuel cbd
           | _ => [])
      | _ => [])

/-- The `skip_block_ids` set (lines 527-545): ids of table-cell blocks and
their transitive descendants, collected only when `skip_table_cells`. -/
def skipBlockIds (normalized : List PyVal) (stc : Bool) : List PyVal :=
  if stc then
    normalized.flatMap (fun b =>
      match b with
      | .dict bd =>
        if dictGetD bd "block_type" .none = .int 32 then
          dictGetD bd "block_id" (.str "")
            :: addDescendants normalized (normalized.length + 1) bd
        else []
      | _ => [])
  else []

/-- `iter_blocks.traverse` (lines 547-675).  The fuel argument stands for
`max_depth + 1 - depth`: the guard `depth > max_depth` is exactly
`fuel = 0`. -/
def traverseAux (maxDepth : Nat) (stc : Bool) (skipIds : List PyVal) :
    Nat → List PyVal → List BlockInfo
  | 0, _ => []
  | fuel + 1, blockList =>
    blockList.flatMap (fun block =>
      match block with
      | .dict b =>
        let blockType := dictGetD b "block_type" (.int 0)
        let blockId := dictGetD b "block_id" (.str "")
        if stc ∧ blockType = .int 32 then []
        else if blockId ∈ skipIds then []
        else
          let children := dictGetD b "children" (.list [])
          mkBlockInfo b ::
            (if ¬ (stc ∧ blockType = .int 31) ∧ pyTruthy children then
              traverseAux maxDepth stc skipIds fuel (asList children)
            else [])
      | _ => [])

/-- `DocumentProcessor.iter_blocks`: normalize, build the skip set, then
traverse from depth 0 (fuel `max_depth + 1`). -/
def iterBlocks (blocks : PyVal) (maxDepth : Nat) (stc : Bool) : List BlockInfo :=
  let normalized := normalizeBlocks blocks
  traverseAux maxDepth stc (skipBlockIds normalized stc) (maxDepth + 1) normalized

lemma mkBlockInfo_block_type (b : List (String × PyVal)) :
    (mkBlockInfo b).block_type = dictGetD b "block_type" (.int 0) := rfl

lemma mkBlockInfo_checked (b : List (String × PyVal)) :
    (mkBlockInfo b).checked
      = (match dictGet b "bullet" with
         | Option.some (.dict _) =>
           if dictGetD b "block_type" (.int 0) = .int 16 then
             pyGetD (dictGetD b "todo" (.dict [])) "done" (.bool false)
           else .bool false
         | _ => .bool false) := by
  rcases hbul : dictGet b "bullet" with _ | v
  · simp only [mkBlockInfo, hbul]
  · rcases v with _ | b0 | n | s | xs | bd <;> simp only [mkBlockInfo, hbul]

/-- Every record produced by the traversal is `mkBlockInfo` of some dict
block. -/
lemma mem_traverse_exists (maxD : Nat) (stc : Bool) (skipIds : List PyVal) :
    ∀ (fuel : Nat) (blockList : List PyVal) (info : BlockInfo),
      info ∈ traverseAux maxD stc skipIds fuel blockList →
      ∃ b, info = mkBlockInfo b := by
  intro fuel
  induction fuel with
  | zero =>
    intro bl info h
    simp [traverseAux] at h
  | succ f ih =>
    intro bl info h
    simp only [traverseAux, List.mem_flatMap] at h
    obtain ⟨block, hmem, hin⟩ := h
    cases block with
    | dict b =>
      have hin2 : info ∈
          (if stc ∧ dictGetD b "block_type" (.int 0) = .int 32 then ([] : List BlockInfo)
           else if dictGetD b "block_id" (.str "") ∈ skipIds then []
           else mkBlockInfo b ::
             (if ¬ (stc ∧ dictGetD b "block_type" (.int 0) = .int 31)
                 ∧ pyTruthy (dictGetD b "children" (.list [])) then
               traverseAux maxD stc skipIds f (asList (dictGetD b "children" (.list [])))
             else [])) := hin
      by_cases h1 : stc ∧ dictGetD b "block_type" (.int 0) = .int 32
      · rw [if_pos h1] at hin2
        simp at hin2
      · rw [if_neg h1] at hin2
        by_cases h2 : dictGetD b "block_id" (.str "") ∈ skipIds
        · rw [if_pos h2] at hin2
          simp at hin2
        · rw [if_neg h2] at hin2
          rcases List.mem_cons.mp hin2 with heq | hrec
          · exact ⟨b, heq⟩
          · by_cases h3 : ¬ (stc ∧ dictGetD b "block_type" (.int 0) = .int 31)
                ∧ pyTruthy (dictGetD b "children" (.list []))
            · rw [if_pos h3] at hrec
              exact ih _ info hrec
            · rw [if_neg h3] at hrec
              simp at hrec
    | none => simp at hin
    | bool b0 => simp at hin
    | int n => simp at hin
    | str s => simp at hin
    | list xs => simp at hin

/-- The block used to refute C4 as stated: a todo block carrying its
`done` flag but no `bullet` payload. -/
def c4Block : List (String × PyVal) :=
  [("block_id", .str "t1"), ("block_type", .int 16), ("todo", .dict [("done", .bool true)])]

/-- C4 counterexample: the walker visits a todo block whose `todo.done` is
`True`, yet the produced record's checked flag is `False` — `done` is only
read when the block also carries a `bullet` dict. -/
theorem c4_counterexample :
    (iterBlocks (.list [.dict c4Block]) 100 false).map BlockInfo.checked = [.bool false]
      ∧ pyGetD (dictGetD c4Block "todo" (.dict [])) "done" (.bool false) = .bool true := by
  constructor
  · rfl
  · rfl

/-- C4 (amended): the checked flag is read from the `todo` payload only
under the code's list-item gate — block type 16 together with a dict-valued
`bullet` field.  Under that gate, checked is the `done` entry of a
dict-valued `todo` payload and `False` when `todo` is absent (a present
non-dict `todo` makes CPython raise there and is outside this statement);
without the gate — including todo-typed blocks with no `bullet` dict —
checked is `False`, and a record with a non-`False` checked flag always
has block type 16. -/
theorem c4_todo_checked_amended :
    (∀ (b : List (String × PyVal)) (bd : List (String × PyVal)),
       dictGet b "bullet" = Option.some (.dict bd) →
       dictGetD b "block_type" (.int 0) = .int 16 →
       (dictGet b "todo" = Option.none → (mkBlockInfo b).checked = .bool false) ∧
       (∀ td : List (String × PyVal), dictGet b "todo" = Option.some (.dict td) →
          (mkBlockInfo b).checked = dictGetD td "done" (.bool false))) ∧
    (∀ b : List (String × PyVal),
       ((∀ bd : List (String × PyVal), dictGet b "bullet" ≠ Option.some (.dict bd))
         ∨ dictGetD b "block_type" (.int 0) ≠ .int 16) →
       (mkBlockInfo b).checked = .bool false) ∧
    (∀ (blocks : PyVal) (maxD : Nat) (stc : Bool) (info : BlockInfo),
      info ∈ iterBlocks blocks maxD stc → info.checked ≠ .bool false →
      info.block_type = .int 16) := by
  refine ⟨?_, ?_, ?_⟩
  · intro b bd hbul h16
    constructor
    · intro ht
      rw [mkBlockInfo_checked, hbul]
      show (if dictGetD b "block_type" (.int 0) = .int 16 then
          pyGetD (dictGetD b "todo" (.dict [])) "done" (.bool false)
        else .bool false) = .bool false
      rw [if_pos h16]
      rw [show dictGetD b "todo" (.dict []) = .dict [] from by rw [dictGetD, ht]; rfl]
      rfl
    · intro td htd
      rw [mkBlockInfo_checked, hbul]
      show (if dictGetD b "block_type" (.int 0) = .int 16 then
          pyGetD (dictGetD b "todo" (.dict [])) "done" (.bool false)
        else .bool false) = dictGetD td "done" (.bool false)
      rw [if_pos h16]
      rw [show dictGetD b "todo" (.dict []) = .dict td from by rw [dictGetD, htd]; rfl]
      rfl
  · intro b hcond
    rw [mkBlockInfo_checked]
    rcases hb : dictGet b "bullet" with _ | v
    · rfl
    · rcases v with _ | b0 | n | s | xs | bd
      · rfl
      · rfl
      · rfl
      · rfl
      · rfl
      · rcases hcond with hno | h16
        · exact absurd hb (hno bd)
        · show (if dictGetD b "block_type" (.int 0) = .int 16 then
              pyGetD (dictGetD b "todo" (.dict [])) "done" (.bool false)
            else .bool false) = .bool false
          rw [if_neg h16]
  · intro blocks maxD stc info hmem hchk
    simp only [iterBlocks] at hmem
    obtain ⟨b, rfl⟩ := mem_traverse_exists _ _ _ _ _ info hmem
    rw [mkBlockInfo_block_type]
    by_contra hne
    apply hchk
    rw [mkBlockInfo_checked]
    rcases hb : dictGet b "bullet" with _ | v
    · rfl
    · rcases v with _ | b0 | n | s | xs | bd
      · rfl
      · rfl
      · rfl
      · rfl
      · rfl
      · show (if dictGetD b "block_type" (.int 0) = .int 16 then
            pyGetD (dictGetD b "todo" (.dict [])) "done" (.bool false)
          else .bool false) = .bool false
        rw [if_neg hne]

/-- A todo block that does carry a `bullet` payload. -/
def c4BulletBlock : List (String × PyVal) :=
  [("block_id", .str "t2"), ("block_type", .int 16),
   ("bullet", .dict [("elements", .list [.dict [("text_run",
     .dict [("content", .str "item")])]])]),
   ("todo", .dict [("done", .bool true)])]

/-- C4 amended, witness: with a `bullet` dict present (and a dict `todo`)
the checked flag is read from `todo.done`; without a `bullet` payload it is
`False`; and a truthy-checked record has block type 16. -/
theorem c4_amended_witness :
    (mkBlockInfo c4BulletBlock).checked = .bool true
      ∧ (mkBlockInfo c4Block).checked = .bool false
      ∧ (mkBlockInfo c4BulletBlock).block_type = .int 16 :=
  ⟨((c4_todo_checked_amended.1 c4BulletBlock
        [("elements", .list [.dict [("text_run", .dict [("content", .str "item")])]])]
        rfl rfl).2 [("done", .bool true)] rfl).trans rfl,
   c4_todo_checked_amended.2.1 c4Block (Or.inl (fun bd hbd => by
      rw [show dictGet c4Block "bullet" = Option.none from rfl] at hbd
      exact Option.noConfusion hbd)),
   c4_todo_checked_amended.2.2 (.list [.dict c4BulletBlock]) 100 false
     (mkBlockInfo c4BulletBlock) (by decide) (by decide)⟩

/-! ## Spec-side unbounded pre-order traversal (for the depth-guard claim)

`preorderAux` walks the same tree with the same skip rules as
`iter_blocks.traverse` but with no depth cutoff, recording each record's
nesting depth.  In the embedding children are nested values, so the
unbounded walk is well-founded on the size of the block list. -/

lemma sizeOf_dictGet_lt (d : List (String × PyVal)) (k : String) (v : PyVal)
    (h : dictGet d k = Option.some v) : sizeOf v < sizeOf d := by
  unfold dictGet at h
  rcases hf : d.find? (fun kv => kv.1 = k) with _ | kv
  · rw [hf] at h
    exact Option.noConfusion h
  · rw [hf] at h
    simp at h
    have hmem := List.mem_of_find?_eq_some hf
    have h1 := List.sizeOf_lt_of_mem hmem
    obtain ⟨k2, v2⟩ := kv
    simp only at h
    subst h
    simp only [Prod.mk.sizeOf_spec] at h1
    omega

lemma sizeOf_asList_le (v : PyVal) : sizeOf (asList v) ≤ sizeOf v := by
  cases v <;> simp [asList] <;> omega

lemma sizeOf_list_pos (l : List PyVal) : 1 ≤ sizeOf l := by
  cases l <;> simp <;> omega

lemma sizeOf_children_lt (b : List (String × PyVal)) (rest : List PyVal) :
    sizeOf (asList (dictGetD b "children" (.list []))) < sizeOf (PyVal.dict b :: rest) := by
  have hrest := sizeOf_list_pos rest
  rcases hk : dictGet b "children" with _ | v
  · simp [dictGetD, hk, asList]
    omega
  · have h1 := sizeOf_dictGet_lt b "children" v hk
    have h2 := sizeOf_asList_le v
    simp [dictGetD, hk]
    omega

/-- Unbounded pre-order walk with the skip rules of `iter_blocks.traverse`,
annotating each produced record with its nesting depth. -/
def preorderAux (stc : Bool) (skipIds : List PyVal) : List PyVal → Nat → List (BlockInfo × Nat)
  | [], _ => []
  | block :: rest, depth =>
    (match block with
     | .dict b =>
       if stc ∧ dictGetD b "block_type" (.int 0) = .int 32 then []
       else if dictGetD b "block_id" (.str "") ∈ skipIds then []
       else if ¬ (stc ∧ dictGetD b "block_type" (.int 0) = .int 31)
           ∧ pyTruthy (dictGetD b "children" (.list [])) then
         (mkBlockInfo b, depth)
           :: preorderAux stc skipIds (asList (dictGetD b "children" (.list []))) (depth + 1)
       else [(mkBlockInfo b, depth)]
     | _ => []) ++ preorderAux stc skipIds rest depth
termination_by l _ => sizeOf l
decreasing_by
  all_goals simp_wf
  all_goals try (have h := sizeOf_children_lt d rest; simp at h; omega)
  all_goals simp
  all_goals try omega

/-- Head contribution of one dict block in the fueled traversal. -/
def traverseHead (maxD : Nat) (stc : Bool) (skipIds : List PyVal) (fuel : Nat)
    (b : List (String × PyVal)) : List BlockInfo :=
  if stc ∧ dictGetD b "block_type" (.int 0) = .int 32 then []
  else if dictGetD b "block_id" (.str "") ∈ skipIds then []
  else mkBlockInfo b ::
    (if ¬ (stc ∧ dictGetD b "block_type" (.int 0) = .int 31)
        ∧ pyTruthy (dictGetD b "children" (.list [])) then
      traverseAux maxD stc skipIds fuel (asList (dictGetD b "children" (.list [])))
    else [])

/-- Head contribution of one dict block in the unbounded walk. -/
def preorderHead (stc : Bool) (skipIds : List PyVal) (b : List (String × PyVal))
    (depth : Nat) : List (BlockInfo × Nat) :=
  if stc ∧ dictGetD b "block_type" (.int 0) = .int 32 then []
  else if dictGetD b "block_id" (.str "") ∈ skipIds then []
  else if ¬ (stc ∧ dictGetD b "block_type" (.int 0) = .int 31)
      ∧ pyTruthy (dictGetD b "children" (.list [])) then
    (mkBlockInfo b, depth)
      :: preorderAux stc skipIds (asList (dictGetD b "children" (.list []))) (depth + 1)
  else [(mkBlockInfo b, depth)]

lemma traverseAux_nil_any (maxD : Nat) (stc : Bool) (sk : List PyVal) :
    ∀ fuel, traverseAux maxD stc sk fuel [] = [] := by
  intro fuel
  cases fuel <;> rfl

lemma traverseAux_cons_dict (maxD : Nat) (stc : Bool) (sk : List PyVal) (f : Nat)
    (b : List (String × PyVal)) (rest : List PyVal) :
    traverseAux maxD stc sk (f + 1) (.dict b :: rest)
      = traverseHead maxD stc sk f b ++ traverseAux maxD stc sk (f + 1) rest := rfl

lemma preorderAux_cons_dict (stc : Bool) (sk : List PyVal) (b : List (String × PyVal))
    (rest : List PyVal) (depth : Nat) :
    preorderAux stc sk (.dict b :: rest) depth
      = preorderHead stc sk b depth ++ preorderAux stc sk rest depth := by
  rw [preorderAux]
  rfl

/-- Depths recorded by the unbounded walk never drop below the entry
depth. -/
lemma preorder_depth_mono (stc : Bool) (sk : List PyVal) :
    ∀ (n : Nat) (bl : List PyVal) (depth : Nat) (p : BlockInfo × Nat),
      sizeOf bl ≤ n → p ∈ preorderAux stc sk bl depth → depth ≤ p.2 := by
  intro n
  induction n with
  | zero =>
    intro bl depth p hle hp
    have := sizeOf_list_pos bl
    omega
  | succ n ih =>
    intro bl depth p hle hp
    rcases bl with _ | ⟨block, rest⟩
    · rw [show preorderAux stc sk [] depth = [] from by rw [preorderAux]] at hp
      simp at hp
    · have hsz : sizeOf rest ≤ n := by
        have hb1 : 1 ≤ sizeOf block := by cases block <;> simp <;> omega
        have h2 := hle
        simp at h2
        omega
      cases block with
      | dict b =>
        rw [preorderAux_cons_dict] at hp
        rcases List.mem_append.mp hp with hhd | htl
        · unfold preorderHead at hhd
          by_cases h1 : stc ∧ dictGetD b "block_type" (.int 0) = .int 32
          · rw [if_pos h1] at hhd
            simp at hhd
          · rw [if_neg h1] at hhd
            by_cases h2 : dictGetD b "block_id" (.str "") ∈ sk
            · rw [if_pos h2] at hhd
              simp at hhd
            · rw [if_neg h2] at hhd
              by_cases h3 : ¬ (stc ∧ dictGetD b "block_type" (.int 0) = .int 31)
                  ∧ pyTruthy (dictGetD b "children" (.list []))
              · rw [if_pos h3] at hhd
                rcases List.mem_cons.mp hhd with heq | hrec
                · subst heq
                  exact Nat.le_refl _
                · have hszc : sizeOf (asList (dictGetD b "children" (.list []))) ≤ n := by
                    have := sizeOf_children_lt b rest
                    simp at this
                    have h4 : sizeOf (PyVal.dict b :: rest) ≤ n + 1 := hle
                    simp at h4
                    omega
                  have := ih _ (depth + 1) p hszc hrec
                  omega
              · rw [if_neg h3] at hhd
                simp at hhd
                subst hhd
                exact Nat.le_refl _
        · exact ih rest depth p hsz htl
      | none =>
        rw [show preorderAux stc sk (PyVal.none :: rest) depth
            = [] ++ preorderAux stc sk rest depth from by rw [preorderAux] <;> simp] at hp
        exact ih rest depth p hsz (by simpa using hp)
      | bool b0 =>
        rw [show preorderAux stc sk (PyVal.bool b0 :: rest) depth
            = [] ++ preorderAux stc sk rest depth from by rw [preorderAux] <;> simp] at hp
        exact ih rest depth p hsz (by simpa using hp)
      | int n0 =>
        rw [show preorderAux stc sk (PyVal.int n0 :: rest) depth
            = [] ++ preorderAux stc sk rest depth from by rw [preorderAux] <;> simp] at hp
        exact ih rest depth p hsz (by simpa using hp)
      | str s0 =>
        rw [show preorderAux stc sk (PyVal.str s0 :: rest) depth
            = [] ++ preorderAux stc sk rest depth from by rw [preorderAux] <;> simp] at hp
        exact ih rest depth p hsz (by simpa using hp)
      | list xs =>
        rw [show preorderAux stc sk (PyVal.list xs :: rest) depth
            = [] ++ preorderAux stc sk rest depth from by rw [preorderAux] <;> simp] at hp
        exact ih rest depth p hsz (by simpa using hp)

/-- The fueled traversal equals the depth-filtered unbounded walk: fuel
`max_depth + 1 - depth` keeps exactly the records whose depth is at most
`max_depth`. -/
lemma traverse_eq_preorder (maxD : Nat) (stc : Bool) (sk : List PyVal) :
    ∀ (n : Nat) (bl : List PyVal) (depth : Nat), sizeOf bl ≤ n →
      traverseAux maxD stc sk (maxD + 1 - depth) bl
        = ((preorderAux stc sk bl depth).filter (fun p => decide (p.2 ≤ maxD))).map
            Prod.fst := by
  intro n
  induction n with
  | zero =>
    intro bl depth hle
    have := sizeOf_list_pos bl
    omega
  | succ n ih =>
    intro bl depth hle
    rcases bl with _ | ⟨block, rest⟩
    · rw [traverseAux_nil_any,
        show preorderAux stc sk [] depth = [] from by rw [preorderAux]]
      rfl
    · have hsz : sizeOf rest ≤ n := by
        have hb1 : 1 ≤ sizeOf block := by cases block <;> simp <;> omega
        have h2 := hle
        simp at h2
        omega
      by_cases hd : depth ≤ maxD
      · have hfuel : maxD + 1 - depth = (maxD - depth) + 1 := by omega
        cases block with
        | dict b =>
          rw [hfuel, traverseAux_cons_dict, preorderAux_cons_dict, List.filter_append,
            List.map_append]
          have htail := ih rest depth hsz
          rw [hfuel] at htail
          rw [htail]
          congr 1
          unfold traverseHead preorderHead
          by_cases h1 : stc ∧ dictGetD b "block_type" (.int 0) = .int 32
          · rw [if_pos h1, if_pos h1]
            rfl
          · rw [if_neg h1, if_neg h1]
            by_cases h2 : dictGetD b "block_id" (.str "") ∈ sk
            · rw [if_pos h2, if_pos h2]
              rfl
            · rw [if_neg h2, if_neg h2]
              by_cases h3 : ¬ (stc ∧ dictGetD b "block_type" (.int 0) = .int 31)
                  ∧ pyTruthy (dictGetD b "children" (.list []))
              · rw [if_pos h3, if_pos h3]
                rw [List.filter_cons_of_pos (by simp [hd]), List.map_cons]
                have hszc : sizeOf (asList (dictGetD b "children" (.list []))) ≤ n := by
                  have hcl := sizeOf_children_lt b rest
                  simp at hcl
                  have h4 := hle
                  simp at h4
                  omega
                have hchild := ih (asList (dictGetD b "children" (.list []))) (depth + 1) hszc
                rw [show maxD + 1 - (depth + 1) = maxD - depth from by omega] at hchild
                rw [hchild]
              · rw [if_neg h3, if_neg h3]
                rw [List.filter_cons_of_pos (by simp [hd])]
                rfl
        | none =>
          rw [hfuel,
            show traverseAux maxD stc sk ((maxD - depth) + 1) (PyVal.none :: rest)
              = traverseAux maxD stc sk ((maxD - depth) + 1) rest from rfl, ← hfuel,
            ih rest depth hsz,
            show preorderAux stc sk (PyVal.none :: rest) depth
              = [] ++ preorderAux stc sk rest depth from by rw [preorderAux] <;> simp]
          simp
        | bool b0 =>
          rw [hfuel,
            show traverseAux maxD stc sk ((maxD - depth) + 1) (PyVal.bool b0 :: rest)
              = traverseAux maxD stc sk ((maxD - depth) + 1) rest from rfl, ← hfuel,
            ih rest depth hsz,
            show preorderAux stc sk (PyVal.bool b0 :: rest) depth
              = [] ++ preorderAux stc sk rest depth from by rw [preorderAux] <;> simp]
          simp
        | int n0 =>
          rw [hfuel,
            show traverseAux maxD stc sk ((maxD - depth) + 1) (PyVal.int n0 :: rest)
              = traverseAux maxD stc sk ((maxD - depth) + 1) rest from rfl, ← hfuel,
            ih rest depth hsz,
            show preorderAux stc sk (PyVal.int n0 :: rest) depth
              = [] ++ preorderAux stc sk rest depth from by rw [preorderAux] <;> simp]
          simp
        | str s0 =>
          rw [hfuel,
            show traverseAux maxD stc sk ((maxD - depth) + 1) (PyVal.str s0 :: rest)
              = traverseAux maxD stc sk ((maxD - depth) + 1) rest from rfl, ← hfuel,
            ih rest depth hsz,
            show preorderAux stc sk (PyVal.str s0 :: rest) depth
              = [] ++ preorderAux stc sk rest depth from by rw [preorderAux] <;> simp]
          simp
        | list xs =>
          rw [hfuel,
            show traverseAux maxD stc sk ((maxD - depth) + 1) (PyVal.list xs :: rest)
              = traverseAux maxD stc sk ((maxD - depth) + 1) rest from rfl, ← hfuel,
            ih rest depth hsz,
            show preorderAux stc sk (PyVal.list xs :: rest) depth
              = [] ++ preorderAux stc sk rest depth from by rw [preorderAux] <;> simp]
          simp
      · have hfuel0 : maxD + 1 - depth = 0 := by omega
        rw [hfuel0,
          show traverseAux maxD stc sk 0 (block :: rest) = [] from rfl]
        symm
        simp only [List.map_eq_nil_iff, List.filter_eq_nil_iff]
        intro p hp
        have hmono := preorder_depth_mono stc sk (sizeOf (block :: rest)) _ depth p
          (Nat.le_refl _) hp
        simp
        omega

/-- C7: for every block tree, `max_depth` and table-cell flag, the records
produced by `iter_blocks` are exactly those of the unbounded pre-order walk
whose nesting depth is at most `max_depth`, in pre-order; deeper subtrees
are silently truncated and the traversal is a total function. -/
theorem c7_depth_guard (blocks : PyVal) (maxDepth : Nat) (stc : Bool) :
    iterBlocks blocks maxDepth stc
      = ((preorderAux stc (skipBlockIds (normalizeBlocks blocks) stc)
            (normalizeBlocks blocks) 0).filter
          (fun p => decide (p.2 ≤ maxDepth))).map Prod.fst := by
  have h := traverse_eq_preorder maxDepth stc (skipBlockIds (normalizeBlocks blocks) stc)
    (sizeOf (normalizeBlocks blocks)) (normalizeBlocks blocks) 0 (Nat.le_refl _)
  simpa [iterBlocks] using h

/-! ## `DocumentProcessor._merge_lists` (lines 820-878)

Render items are `(item_type, content, extra)` tuples; content and extra
remain Python values. -/

/-- A render item `(item_type, content, extra)`. -/
abbrev Item := String × PyVal × PyVal

/-- The three list-typed tags. -/
def listTags : List String := ["bullet", "ordered", "todo"]

/-- `enumerate(list_items, 1)` over an ordered run: re-number from `idx`. -/
def renderOrderedRun : Nat → List Item → List Item
  | _, [] => []
  | idx, (_, c, _) :: rest => ("ordered", c, PyVal.int (Int.ofNat idx)) :: renderOrderedRun (idx + 1) rest

/-- The loop body of `_merge_lists`, fueled by the number of outer-loop
iterations (the item count is always enough, as each iteration consumes at
least one item). -/
def mergeAux : Nat → List Item → List Item
  | 0, items => items
  | fuel + 1, items =>
    match items with
    | [] => []
    | (t, c, e) :: rest =>
      if t ∈ listTags then
        let run := (t, c, e) :: rest.takeWhile (fun it => it.1 = t)
        let rest2 := rest.dropWhile (fun it => it.1 = t)
        let rendered :=
          if t = "bullet" then run.map (fun it => (("bullet" : String), it.2.1, PyVal.none))
          else if t = "ordered" then renderOrderedRun 1 run
          else run.map (fun it => (("todo" : String), it.2.1, it.2.2))
        let blank : List Item :=
          match rest2 with
          | [] => []
          | (t2, _, _) :: _ =>
            if t2 ∈ listTags then [] else [(("blank" : String), PyVal.str "", PyVal.none)]
        rendered ++ blank ++ mergeAux fuel rest2
      else (t, c, e) :: mergeAux fuel rest

/-- `DocumentProcessor._merge_lists`. -/
def mergeLists (items : List Item) : List Item :=
  mergeAux items.length items

/-- The item refuting C6 as stated: a `bullet` item whose extra field is
not `None`. -/
def c6Item : Item := ("bullet", PyVal.str "x", PyVal.int 1)

/-- C6 counterexample: `_merge_lists` resets a bullet item's extra field to
`None`, so deleting blanks does not recover the input item — the extra
field of a non-ordered item changed. -/
theorem c6_counterexample :
    (mergeLists [c6Item]).filter (fun it => decide (it.1 ≠ "blank")) ≠ [c6Item]
      ∧ mergeLists [c6Item] = [("bullet", PyVal.str "x", PyVal.none)] := by
  constructor
  · decide
  · rfl

/-- The claim's re-tagging, stated independently of the merge loop: `k`
counts the immediately preceding consecutive ordered items, each ordered
item's extra becomes its 1-based position in its run, each bullet item's
extra becomes `None`, everything else is untouched. -/
def retagGo : Nat → List Item → List Item
  | _, [] => []
  | k, (t, c, e) :: rest =>
    if t = "ordered" then
      (("ordered" : String), c, PyVal.int (Int.ofNat (k + 1))) :: retagGo (k + 1) rest
    else (t, c, if t = "bullet" then PyVal.none else e) :: retagGo 0 rest

/-- The claim's expected output on blank-free input. -/
def retagSpec (items : List Item) : List Item :=
  retagGo 0 items

lemma length_dropWhile_le (p : Item → Bool) (l : List Item) :
    (l.dropWhile p).length ≤ l.length := by
  induction l with
  | nil => simp
  | cons x xs ih =>
    by_cases hx : p x
    · rw [List.dropWhile_cons_of_pos hx]
      simp only [List.length_cons]
      omega
    · rw [List.dropWhile_cons_of_neg hx]

lemma retagGo_reset (k : Nat) (xs : List Item)
    (h : ∀ hd, xs.head? = Option.some hd → hd.1 ≠ "ordered") :
    retagGo k xs = retagGo 0 xs := by
  cases xs with
  | nil => rfl
  | cons hd rest =>
    obtain ⟨t, c, e⟩ := hd
    have ht : t ≠ "ordered" := h (t, c, e) rfl
    simp only [retagGo, if_neg ht]

lemma retagGo_ordered_run : ∀ (run : List Item) (rest2 : List Item) (k : Nat),
    (∀ it ∈ run, it.1 = "ordered") →
    retagGo k (run ++ rest2)
      = renderOrderedRun (k + 1) run ++ retagGo (k + run.length) rest2 := by
  intro run
  induction run with
  | nil => intro rest2 k _; simp [renderOrderedRun]
  | cons it run ih =>
    intro rest2 k h
    obtain ⟨t, c, e⟩ := it
    have ht : t = "ordered" := h (t, c, e) (by simp)
    subst ht
    simp only [List.cons_append, retagGo, if_pos rfl, if_true, List.append_eq,
      renderOrderedRun]
    rw [ih rest2 (k + 1) (fun z hz => h z (by simp [hz]))]
    simp only [List.length_cons]
    rw [show k + 1 + run.length = k + (run.length + 1) from by omega]

lemma retagGo_const_run (tag : String) (htag : tag ≠ "ordered") :
    ∀ (run : List Item) (rest2 : List Item),
    (∀ it ∈ run, it.1 = tag) →
    retagGo 0 (run ++ rest2)
      = run.map (fun it => (tag, it.2.1, if tag = "bullet" then PyVal.none else it.2.2))
          ++ retagGo 0 rest2 := by
  intro run
  induction run with
  | nil => intro rest2 _; simp
  | cons it run ih =>
    intro rest2 h
    obtain ⟨t, c, e⟩ := it
    have ht : t = tag := h (t, c, e) (by simp)
    subst ht
    simp only [List.cons_append, retagGo, if_neg htag, List.map_cons, List.append_eq]
    rw [ih rest2 (fun z hz => h z (by simp [hz]))]

lemma renderOrderedRun_length : ∀ (idx : Nat) (run : List Item),
    (renderOrderedRun idx run).length = run.length := by
  intro idx run
  induction run generalizing idx with
  | nil => rfl
  | cons it rest ih =>
    obtain ⟨t, c, e⟩ := it
    simp [renderOrderedRun, ih]

lemma renderOrderedRun_tags : ∀ (idx : Nat) (run : List Item) (it : Item),
    it ∈ renderOrderedRun idx run → it.1 = "ordered" := by
  intro idx run
  induction run generalizing idx with
  | nil => intro it h; simp [renderOrderedRun] at h
  | cons x rest ih =>
    obtain ⟨t, c, e⟩ := x
    intro it h
    simp only [renderOrderedRun, List.mem_cons] at h
    rcases h with h | h
    · rw [h]
    · exact ih _ it h

lemma retagGo_proj : ∀ (k : Nat) (items : List Item),
    (retagGo k items).map (fun it => (it.1, it.2.1)) = items.map (fun it => (it.1, it.2.1)) := by
  intro k items
  induction items generalizing k with
  | nil => rfl
  | cons it rest ih =>
    obtain ⟨t, c, e⟩ := it
    by_cases ht : t = "ordered"
    · subst ht; simp [retagGo, ih]
    · simp [retagGo, if_neg ht, ih]

lemma head_dropWhile_ne (p : Item → Bool) (l : List Item) (hd : Item)
    (h : (l.dropWhile p).head? = Option.some hd) : p hd = false := by
  induction l with
  | nil => simp [List.dropWhile] at h
  | cons x xs ih =>
    by_cases hx : p x
    · rw [List.dropWhile_cons_of_pos hx] at h; exact ih h
    · rw [List.dropWhile_cons_of_neg hx] at h
      simp only [List.head?_cons, Option.some.injEq] at h
      rw [← h]
      exact Bool.eq_false_iff.mpr hx

lemma mem_dropWhile (p : Item → Bool) (l : List Item) (a : Item)
    (h : a ∈ l.dropWhile p) : a ∈ l := by
  induction l with
  | nil => simpa [List.dropWhile] using h
  | cons x xs ih =>
    by_cases hx : p x
    · rw [List.dropWhile_cons_of_pos hx] at h
      exact List.mem_cons_of_mem _ (ih h)
    · rw [List.dropWhile_cons_of_neg hx] at h
      exact h

lemma retagGo_length : ∀ (k : Nat) (l : List Item), (retagGo k l).length = l.length := by
  intro k l
  induction l generalizing k with
  | nil => rfl
  | cons it rest ih =>
    obtain ⟨t, c, e⟩ := it
    by_cases ht : t = "ordered"
    · subst ht; simp [retagGo, ih]
    · simp [retagGo, if_neg ht, ih]

lemma retagGo_bullet_run (run rest2 : List Item) (h : ∀ it ∈ run, it.1 = "bullet") :
    retagGo 0 (run ++ rest2)
      = run.map (fun it => (("bullet" : String), it.2.1, PyVal.none)) ++ retagGo 0 rest2 := by
  rw [retagGo_const_run "bullet" (by decide) run rest2 h]
  simp

lemma retagGo_todo_run (run rest2 : List Item) (h : ∀ it ∈ run, it.1 = "todo") :
    retagGo 0 (run ++ rest2)
      = run.map (fun it => (("todo" : String), it.2.1, it.2.2)) ++ retagGo 0 rest2 := by
  rw [retagGo_const_run "todo" (by decide) run rest2 h]
  simp

lemma mergeAux_spec : ∀ (fuel : Nat) (items : List Item), items.length ≤ fuel →
    (∀ it ∈ items, it.1 ≠ "blank") →
    (mergeAux fuel items).filter (fun it => decide (it.1 ≠ "blank")) = retagGo 0 items := by
  intro fuel
  induction fuel with
  | zero =>
    intro items hlen hfree
    have h0 : items = [] := List.eq_nil_of_length_eq_zero (Nat.le_zero.mp hlen)
    subst h0
    rfl
  | succ fuel ih =>
    intro items hlen hfree
    cases items with
    | nil => rfl
    | cons hd rest =>
      obtain ⟨t, c, e⟩ := hd
      by_cases htag : t ∈ listTags
      · -- list-run branch
        have hruntags : ∀ it ∈ (t, c, e) :: rest.takeWhile (fun it => it.1 = t), it.1 = t := by
          intro it hit
          rcases List.mem_cons.mp hit with h | h
          · rw [h]
          · have h2 := List.mem_takeWhile_imp h
            simpa using h2
        have hfree2 : ∀ it ∈ rest.dropWhile (fun it => it.1 = t), it.1 ≠ "blank" := by
          intro it hit
          exact hfree it (List.mem_cons_of_mem _ (mem_dropWhile _ _ _ hit))
        have hfuel2 : (rest.dropWhile (fun it => it.1 = t)).length ≤ fuel := by
          have h1 := length_dropWhile_le (fun it => it.1 = t) rest
          simp only [List.length_cons] at hlen
          omega
        have hIH := ih (rest.dropWhile (fun it => it.1 = t)) hfuel2 hfree2
        have hsplit : rest.takeWhile (fun it => it.1 = t) ++ rest.dropWhile (fun it => it.1 = t) = rest :=
          List.takeWhile_append_dropWhile (fun it => decide (it.1 = t)) rest
        simp only [mergeAux, if_pos htag]
        have hblank : ∀ (dp : List Item), List.filter (fun it : Item => decide (it.1 ≠ "blank"))
            (match dp with
            | [] => ([] : List Item)
            | (t2, _, _) :: _ => if t2 ∈ listTags then [] else [("blank", PyVal.str "", PyVal.none)]) = [] := by
          intro dp
          rcases dp with _ | ⟨⟨t2, c2, e2⟩, dtail⟩
          · rfl
          · show List.filter (fun it : Item => decide (it.1 ≠ "blank"))
                (if t2 ∈ listTags then [] else [("blank", PyVal.str "", PyVal.none)]) = []
            by_cases h2 : t2 ∈ listTags
            · rw [if_pos h2]; rfl
            · rw [if_neg h2]; rfl
        have ht3 : t = "bullet" ∨ t = "ordered" ∨ t = "todo" := by
          simpa [listTags] using htag
        rcases ht3 with ht | ht | ht
        · -- bullet run
          subst ht
          rw [if_pos rfl]
          have hcons : ("bullet", c, e) :: rest
              = (("bullet", c, e) :: rest.takeWhile (fun it => it.1 = "bullet"))
                  ++ rest.dropWhile (fun it => it.1 = "bullet") := by
            rw [List.cons_append, hsplit]
          have hretagfull : retagGo 0 (("bullet", c, e) :: rest)
              = (("bullet", c, e) :: rest.takeWhile (fun it => it.1 = "bullet")).map
                  (fun it => (("bullet" : String), it.2.1, PyVal.none))
                ++ retagGo 0 (rest.dropWhile (fun it => it.1 = "bullet")) := by
            conv_lhs => rw [hcons]
            exact retagGo_bullet_run _ _ hruntags
          have hfrend : ((("bullet", c, e) :: rest.takeWhile (fun it => it.1 = "bullet")).map
                (fun it => (("bullet" : String), it.2.1, PyVal.none))).filter
                  (fun it => decide (it.1 ≠ "blank"))
              = (("bullet", c, e) :: rest.takeWhile (fun it => it.1 = "bullet")).map
                  (fun it => (("bullet" : String), it.2.1, PyVal.none)) := by
            apply List.filter_eq_self.mpr
            intro a ha
            rcases List.mem_map.mp ha with ⟨b, _, hb⟩
            rw [← hb]
            rfl
          rw [List.filter_append, List.filter_append, hblank, hIH, List.append_nil,
            hfrend, hretagfull]
        · -- ordered run
          subst ht
          rw [if_neg (by decide), if_pos rfl]
          have hcons : ("ordered", c, e) :: rest
              = (("ordered", c, e) :: rest.takeWhile (fun it => it.1 = "ordered"))
                  ++ rest.dropWhile (fun it => it.1 = "ordered") := by
            rw [List.cons_append, hsplit]
          have hhead : ∀ hd, (rest.dropWhile (fun it => it.1 = "ordered")).head? = Option.some hd →
              hd.1 ≠ "ordered" := by
            intro hd hh
            have h4 := head_dropWhile_ne _ rest hd hh
            simpa using h4
          have hretagfull : retagGo 0 (("ordered", c, e) :: rest)
              = renderOrderedRun 1 (("ordered", c, e) :: rest.takeWhile (fun it => it.1 = "ordered"))
                ++ retagGo 0 (rest.dropWhile (fun it => it.1 = "ordered")) := by
            conv_lhs => rw [hcons]
            rw [retagGo_ordered_run _ _ 0 hruntags]
            simp only [Nat.zero_add]
            rw [retagGo_reset _ _ hhead]
          have hfrend : (renderOrderedRun 1 (("ordered", c, e) :: rest.takeWhile (fun it => it.1 = "ordered"))).filter
                  (fun it => decide (it.1 ≠ "blank"))
              = renderOrderedRun 1 (("ordered", c, e) :: rest.takeWhile (fun it => it.1 = "ordered")) := by
            apply List.filter_eq_self.mpr
            intro a ha
            have h6 := renderOrderedRun_tags _ _ a ha
            rw [decide_eq_true_eq, h6]
            decide
          rw [List.filter_append, List.filter_append, hblank, hIH, List.append_nil,
            hfrend, hretagfull]
        · -- todo run
          subst ht
          rw [if_neg (by decide), if_neg (by decide)]
          have hcons : ("todo", c, e) :: rest
              = (("todo", c, e) :: rest.takeWhile (fun it => it.1 = "todo"))
                  ++ rest.dropWhile (fun it => it.1 = "todo") := by
            rw [List.cons_append, hsplit]
          have hretagfull : retagGo 0 (("todo", c, e) :: rest)
              = (("todo", c, e) :: rest.takeWhile (fun it => it.1 = "todo")).map
                  (fun it => (("todo" : String), it.2.1, it.2.2))
                ++ retagGo 0 (rest.dropWhile (fun it => it.1 = "todo")) := by
            conv_lhs => rw [hcons]
            exact retagGo_todo_run _ _ hruntags
          have hfrend : ((("todo", c, e) :: rest.takeWhile (fun it => it.1 = "todo")).map
                (fun it => (("todo" : String), it.2.1, it.2.2))).filter
                  (fun it => decide (it.1 ≠ "blank"))
              = (("todo", c, e) :: rest.takeWhile (fun it => it.1 = "todo")).map
                  (fun it => (("todo" : String), it.2.1, it.2.2)) := by
            apply List.filter_eq_self.mpr
            intro a ha
            rcases List.mem_map.mp ha with ⟨b, _, hb⟩
            rw [← hb]
            rfl
          rw [List.filter_append, List.filter_append, hblank, hIH, List.append_nil,
            hfrend, hretagfull]
      · -- plain item branch
        have hbul : t ≠ "bullet" := by
          intro h; exact htag (by rw [h]; simp [listTags])
        have hord : t ≠ "ordered" := by
          intro h; exact htag (by rw [h]; simp [listTags])
        have hne : t ≠ "blank" := hfree (t, c, e) (List.mem_cons_self _ _)
        have hfree1 : ∀ it ∈ rest, it.1 ≠ "blank" := fun it hit => hfree it (List.mem_cons_of_mem _ hit)
        have hlen1 : rest.length ≤ fuel := by
          simp only [List.length_cons] at hlen; omega
        have hIH := ih rest hlen1 hfree1
        have hmerge : mergeAux (fuel + 1) ((t, c, e) :: rest) = (t, c, e) :: mergeAux fuel rest := by
          simp only [mergeAux, if_neg htag]
        have hretag : retagGo 0 ((t, c, e) :: rest) = (t, c, e) :: retagGo 0 rest := by
          simp only [retagGo, if_neg hord, if_neg hbul]
        rw [hmerge, hretag]
        rw [List.filter_cons_of_pos (by simpa using hne)]
        rw [hIH]

def c6WitnessItems : List Item :=
  [("ordered", PyVal.str "a", PyVal.none), ("ordered", PyVal.str "b", PyVal.none),
   ("text", PyVal.str "c", PyVal.none), ("bullet", PyVal.str "d", PyVal.int 5)]

/-- C6 (amended): on blank-free input, `_merge_lists` never shrinks the item
list; deleting the inserted synthetic blank separator items yields exactly the
re-tagging `retagSpec` of the input: every input item in order, tags and
contents unchanged, each ordered item's extra field replaced by its 1-based
position within its consecutive ordered run, each bullet item's extra field
reset to `None`, and todo extras kept. -/
theorem c6_merge_structure (items : List Item)
    (h : ∀ it ∈ items, it.1 ≠ "blank") :
    items.length ≤ (mergeLists items).length ∧
    (mergeLists items).filter (fun it => decide (it.1 ≠ "blank")) = retagSpec items ∧
    ((mergeLists items).filter (fun it => decide (it.1 ≠ "blank"))).map (fun it => (it.1, it.2.1))
      = items.map (fun it => (it.1, it.2.1)) := by
  have hf : (mergeLists items).filter (fun it => decide (it.1 ≠ "blank")) = retagSpec items :=
    mergeAux_spec items.length items (Nat.le_refl _) h
  refine ⟨?_, hf, ?_⟩
  · have h1 := congrArg List.length hf
    rw [retagSpec, retagGo_length] at h1
    have h2 := List.length_filter_le (fun it => decide (it.1 ≠ "blank")) (mergeLists items)
    omega
  · rw [hf, retagSpec, retagGo_proj]

theorem c6_amended_witness :
    (mergeLists c6WitnessItems).filter (fun it => decide (it.1 ≠ "blank")) = retagSpec c6WitnessItems :=
  (c6_merge_structure c6WitnessItems (by decide)).2.1

/-! ## `DocumentProcessor._extract_table_markdown` (lines 880-956) and
`_extract_table_markdown_with_styles` (lines 958-1029) -/

/-- The whitespace characters stripped by Python `str.strip()`. -/
def isPySpace (c : Char) : Bool :=
  c = ' ' || c = '\t' || c = '\n' || c = '\r' || c = '\x0b' || c = '\x0c'

/-- Python `s.strip()`. -/
def pyStrip (s : String) : String :=
  String.mk (((s.data.dropWhile isPySpace).reverse.dropWhile isPySpace).reverse)

/-- `cell_text.replace("|", "\\|")`. -/
def escapePipes (s : String) : String :=
  String.mk (s.data.foldr (fun ch acc => if ch = '|' then '\\' :: '|' :: acc else ch :: acc) [])

/-- The field-name list both cell extractors probe, in order. -/
def tableFields : List String :=
  ["text", "heading1", "heading2", "heading3", "heading4", "heading5",
   "heading6", "heading7", "heading8", "heading9", "bullet"]

/-- One element's contribution to a plain cell text: skipped when its
`text_element_style.strikethrough` is truthy, else the `text_run.content`
string (a non-string content never reaches the `join` in any claim input). -/
def elemPlainText (elem : PyVal) : String :=
  if pyTruthy (pyGetD (pyGetD (pyGetD elem "text_run" (.dict []))
      "text_element_style" (.dict [])) "strikethrough" (.bool false)) then ""
  else match pyGetD (pyGetD elem "text_run" (.dict [])) "content" (.str "") with
    | .str s => s
    | _ => ""

/-- The `for field in [...]` probe loop of `_extract_table_markdown`: the
first dict-valued field whose joined element text is nonempty wins. -/
def cellTextFromFields : List String → PyVal → String
  | [], _ => ""
  | f :: rest, child_block =>
    match dictGet (match child_block with | .dict d => d | _ => []) f with
    | Option.some (.dict fd) =>
      let cellText := strConcat ((asList (dictGetD fd "elements" (.list []))).map elemPlainText)
      if cellText ≠ "" then cellText else cellTextFromFields rest child_block
    | _ => cellTextFromFields rest child_block

/-- The probe loop of `_extract_table_markdown_with_styles`: the first
dict-valued field with nonempty styled text wins. -/
def cellStyledFromFields : List String → PyVal → String
  | [], _ => ""
  | f :: rest, child_block =>
    match dictGet (match child_block with | .dict d => d | _ => []) f with
    | Option.some (.dict fd) =>
      let styled := extractTextWithStyles fd
      if styled ≠ "" then styled else cellStyledFromFields rest child_block
    | _ => cellStyledFromFields rest child_block

/-- One cell's text: follow `block_map[cell_id].children[0]` into the child
block and probe its fields (plain when `styled = false`, styled otherwise).
Non-string cell ids and child ids fail the `in block_map` test. -/
def extractCellText (styled : Bool) (block_map : PyVal) (cell_id : PyVal) : String :=
  match cell_id with
  | .str cid =>
    match dictGet (match block_map with | .dict d => d | _ => []) cid with
    | Option.none => ""
    | Option.some cell_block =>
      match asList (pyGetD cell_block "children" (.list [])) with
      | [] => ""
      | c0 :: _ =>
        match c0 with
        | .str c0s =>
          match dictGet (match block_map with | .dict d => d | _ => []) c0s with
          | Option.some child_block =>
            if styled then cellStyledFromFields tableFields child_block
            else cellTextFromFields tableFields child_block
          | Option.none => ""
        | _ => ""
  | _ => ""

/-- One markdown table row: `column_size` cells starting at index
`row * column_size`, out-of-range indices rendering as empty cells. -/
def tableRow (column_size : Nat) (cell_contents : List String) (row : Nat) : String :=
  "| " ++ strIntercalate " | " ((List.range column_size).map (fun col =>
    if row * column_size + col < cell_contents.length
    then escapePipes (cell_contents.getD (row * column_size + col) "") else "")) ++ " |"

/-- The `| --- | ... |` separator emitted after the header row. -/
def sepRow (column_size : Nat) : String :=
  "| " ++ strIntercalate " | " ((List.range column_size).map (fun _ => ("---" : String))) ++ " |"

/-- The row-building loop shared by both table renderers. -/
def buildTableMd (row_size column_size : Nat) (cell_contents : List String) : String :=
  strIntercalate "\n" ((List.range row_size).flatMap (fun row =>
    tableRow column_size cell_contents row :: (if row = 0 then [sepRow column_size] else [])))

/-- Python `v == 0` for the values a size lookup can produce (`bool` compares
as its numeric value; other non-numeric shapes compare unequal). -/
def pyEqZero : PyVal → Bool
  | .int n => n = 0
  | .bool b => !b
  | _ => false

/-- The iteration count Python's `range` derives from a size value (sizes are
ints in every claim input; `range` on other shapes raises). -/
def pyToNat : PyVal → Nat
  | .int n => n.toNat
  | .bool b => cond b 1 0
  | _ => 0

/-- `block_map.get(table_block_id, {}).get("table", {})`. -/
def tableDataOf (block_map : PyVal) (tid : String) : PyVal :=
  pyGetD (pyGetD block_map tid (.dict [])) "table" (.dict [])

/-- `table_data.get("property", {}).get("row_size", 0)`. -/
def rowSizeOf (block_map : PyVal) (tid : String) : PyVal :=
  pyGetD (pyGetD (tableDataOf block_map tid) "property" (.dict [])) "row_size" (.int 0)

/-- `table_data.get("property", {}).get("column_size", 0)`. -/
def colSizeOf (block_map : PyVal) (tid : String) : PyVal :=
  pyGetD (pyGetD (tableDataOf block_map tid) "property" (.dict [])) "column_size" (.int 0)

/-- `DocumentProcessor._extract_table_markdown` (the `blocks` parameter is
unused by the source body).  The final `cell_text.strip() if
cell_text.strip() else ""` is `strip` itself, since a blank strip result is
already the empty string. -/
def extractTableMarkdown (tid : String) (block_map : PyVal) : String :=
  let table_data := tableDataOf block_map tid
  if ¬ pyTruthy table_data then "[Table: unable to extract content]"
  else if pyEqZero (rowSizeOf block_map tid) || pyEqZero (colSizeOf block_map tid) then
    "[Table: empty table]"
  else
    let cell_ids := asList (pyGetD table_data "cells" (.list []))
    let cell_contents := cell_ids.map (fun cid => pyStrip (extractCellText false block_map cid))
    buildTableMd (pyToNat (rowSizeOf block_map tid)) (pyToNat (colSizeOf block_map tid)) cell_contents

/-- `DocumentProcessor._extract_table_markdown_with_styles`. -/
def extractTableMarkdownWithStyles (tid : String) (block_map : PyVal) : String :=
  let table_data := tableDataOf block_map tid
  if ¬ pyTruthy table_data then "[Table: unable to extract content]"
  else if pyEqZero (rowSizeOf block_map tid) || pyEqZero (colSizeOf block_map tid) then
    "[Table: empty table]"
  else
    let cell_ids := asList (pyGetD table_data "cells" (.list []))
    let cell_contents := cell_ids.map (fun cid => pyStrip (extractCellText true block_map cid))
    buildTableMd (pyToNat (rowSizeOf block_map tid)) (pyToNat (colSizeOf block_map tid)) cell_contents

/-- A table block whose `table` field is an empty dict. -/
def c8BlockMap : PyVal :=
  .dict [("t1", .dict [("block_id", .str "t1"), ("block_type", .int 31), ("table", .dict [])])]

theorem c8_counterexample :
    pyEqZero (rowSizeOf c8BlockMap "t1") = true ∧
    extractTableMarkdown "t1" c8BlockMap = "[Table: unable to extract content]" ∧
    extractTableMarkdown "t1" c8BlockMap ≠ "[Table: empty table]" := by
  refine ⟨rfl, rfl, by decide⟩

lemma pad_entry (cs : List String) (n idx : Nat) (hidx : idx < n) :
    (if idx < (cs.take n ++ List.replicate (n - (cs.take n).length) "").length
       then escapePipes ((cs.take n ++ List.replicate (n - (cs.take n).length) "").getD idx "") else "")
      = (if idx < cs.length then escapePipes (cs.getD idx "") else "") := by
  have hlenP : (cs.take n ++ List.replicate (n - (cs.take n).length) "").length = n := by
    simp only [List.length_append, List.length_take, List.length_replicate]
    omega
  rw [hlenP, if_pos hidx]
  by_cases hc : idx < cs.length
  · rw [if_pos hc]
    have h1 : idx < (cs.take n).length := by rw [List.length_take]; omega
    rw [List.getD_eq_getElem?_getD, List.getElem?_append_left h1, List.getElem?_take,
      if_pos hidx, ← List.getD_eq_getElem?_getD]
  · rw [if_neg hc]
    have h1 : (cs.take n).length ≤ idx := by rw [List.length_take]; omega
    rw [List.getD_eq_getElem?_getD, List.getElem?_append_right h1, List.getElem?_replicate]
    by_cases h2 : idx - (cs.take n).length < n - (cs.take n).length
    · rw [if_pos h2]; rfl
    · rw [if_neg h2]; rfl

lemma tableRow_pad (cs : List String) (c r row : Nat) (hrow : row < r) :
    tableRow c (cs.take (r * c) ++ List.replicate (r * c - (cs.take (r * c)).length) "") row
      = tableRow c cs row := by
  unfold tableRow
  have hmap : (List.range c).map (fun col =>
      if row * c + col < (cs.take (r * c) ++ List.replicate (r * c - (cs.take (r * c)).length) "").length
      then escapePipes ((cs.take (r * c) ++ List.replicate (r * c - (cs.take (r * c)).length) "").getD (row * c + col) "") else "")
    = (List.range c).map (fun col =>
      if row * c + col < cs.length then escapePipes (cs.getD (row * c + col) "") else "") := by
    apply List.map_congr_left
    intro col hcol
    have hcol2 : col < c := List.mem_range.mp hcol
    have hidx : row * c + col < r * c := by
      calc row * c + col < row * c + c := by omega
        _ = (row + 1) * c := by rw [Nat.succ_mul]
        _ ≤ r * c := Nat.mul_le_mul_right c hrow
    exact pad_entry cs (r * c) (row * c + col) hidx
  rw [hmap]

lemma flatMap_congr_left (l : List Nat) (f g : Nat → List String)
    (h : ∀ a ∈ l, f a = g a) : l.flatMap f = l.flatMap g := by
  induction l with
  | nil => rfl
  | cons x xs ih =>
    rw [List.flatMap_cons, List.flatMap_cons, h x (by simp), ih (fun a ha => h a (by simp [ha]))]

lemma buildTableMd_pad (cs : List String) (r c : Nat) :
    buildTableMd r c (cs.take (r * c) ++ List.replicate (r * c - (cs.take (r * c)).length) "")
      = buildTableMd r c cs := by
  unfold buildTableMd
  congr 1
  apply flatMap_congr_left
  intro row hrow
  rw [tableRow_pad cs c r row (List.mem_range.mp hrow)]

/-- C8 (amended): when the block's `table` payload is falsy (absent or an
empty dict) both table renderers return `[Table: unable to extract content]`;
when the payload is truthy and `table.property` yields `row_size = 0` or
`column_size = 0` both return exactly `[Table: empty table]`; and the row
builder renders out-of-range cell indices as empty-string cells — padding the
cell list with explicit `""` cells up to `row_size * column_size` leaves the
output unchanged. -/
theorem c8_table_degenerate_amended (bm : PyVal) (tid : String) (r c : Nat) (cs : List String) :
    (pyTruthy (tableDataOf bm tid) = false →
       extractTableMarkdown tid bm = "[Table: unable to extract content]" ∧
       extractTableMarkdownWithStyles tid bm = "[Table: unable to extract content]") ∧
    (pyTruthy (tableDataOf bm tid) = true →
       (pyEqZero (rowSizeOf bm tid) = true ∨ pyEqZero (colSizeOf bm tid) = true) →
       extractTableMarkdown tid bm = "[Table: empty table]" ∧
       extractTableMarkdownWithStyles tid bm = "[Table: empty table]") ∧
    buildTableMd r c (cs.take (r * c) ++ List.replicate (r * c - (cs.take (r * c)).length) "")
      = buildTableMd r c cs := by
  refine ⟨?_, ?_, buildTableMd_pad cs r c⟩
  · intro h
    constructor
    · simp [extractTableMarkdown, h]
    · simp [extractTableMarkdownWithStyles, h]
  · intro h1 h2
    have hor : (pyEqZero (rowSizeOf bm tid) || pyEqZero (colSizeOf bm tid)) = true := by
      rcases h2 with h | h <;> simp [h]
    constructor
    · simp [extractTableMarkdown, h1, hor]
    · simp [extractTableMarkdownWithStyles, h1, hor]

/-- A table block with a truthy `table` payload whose property gives
`row_size = 0`. -/
def c8WitnessMap : PyVal :=
  .dict [("t1", .dict [("table", .dict [("property",
    .dict [("row_size", .int 0), ("column_size", .int 3)])])])]

theorem c8_amended_witness :
    extractTableMarkdown "t1" c8WitnessMap = "[Table: empty table]" ∧
    extractTableMarkdownWithStyles "t1" c8WitnessMap = "[Table: empty table]" ∧
    buildTableMd 2 2 (["a"] ++ List.replicate 3 "") = buildTableMd 2 2 ["a"] := by
  have h := c8_table_degenerate_amended c8WitnessMap "t1" 2 2 ["a"]
  have h2 := h.2.1 (by decide) (Or.inl (by decide))
  exact ⟨h2.1, h2.2, h.2.2⟩

/-! ## `DocumentProcessor.to_markdown` (lines 679-818) -/

/-- The integer value Python's `==`/`<=` comparisons see (`bool` compares as
its numeric value; other shapes match no integer branch). -/
def pyAsIntQ : PyVal → Option Int
  | .int n => Option.some n
  | .bool b => Option.some (cond b 1 0)
  | _ => Option.none

/-- `{b.get("block_id"): b for b in normalized_blocks if isinstance(b, dict)}`.
Block ids are strings in every claim input; a non-string id is modelled as
an absent key.  First binding wins (claim inputs never repeat an id). -/
def buildBlockMap : List PyVal → List (String × PyVal)
  | [] => []
  | b :: rest =>
    match b with
    | .dict bd =>
      (match dictGetD bd "block_id" .none with
       | .str s => [(s, .dict bd)]
       | _ => []) ++ buildBlockMap rest
    | _ => buildBlockMap rest

/-- The first-pass loop body of `to_markdown` (lines 703-765): the render
items contributed by one visited block. -/
def itemsOfInfo (extractTables extractWhiteboards : Bool) (blockMap : PyVal)
    (info : BlockInfo) : List Item :=
  let text := if pyTruthy info.inline_text then info.inline_text else info.text
  match pyAsIntQ info.block_type with
  | Option.none => []
  | Option.some bt =>
    if bt = 1 then [(("skip" : String), .none, .none)]
    else if bt = 2 then (if pyTruthy text then [(("paragraph" : String), text, .none)] else [])
    else if 3 ≤ bt ∧ bt ≤ 11 then [(("heading" : String), text, info.level)]
    else if bt = 12 then [(("bullet" : String), text, .none)]
    else if bt = 13 then [(("ordered" : String), text, .none)]
    else if bt = 14 then [(("code" : String), text, .none)]
    else if bt = 15 then [(("quote" : String), text, .none)]
    else if bt = 16 then [(("todo" : String), text, info.checked)]
    else if bt = 17 then [(("divider" : String), .none, .none)]
    else if bt = 18 then
      (if pyTruthy text then [(("image" : String), text, .none)]
       else [(("image" : String), .str "", .none)])
    else if bt = 19 then [(("callout" : String), text, .none)]
    else if bt = 31 then
      (if extractTables then
        [(("table" : String), .str (extractTableMarkdownWithStyles
            (match info.block_id with | .str bid => bid | _ => "") blockMap), .none)]
      else
        [(("table" : String),
          .str ("[Table with " ++ String.mk (natChars info.children_count) ++ " cells]"), .none)])
    else if bt = 43 then
      (if extractWhiteboards then
        let blockData := pyGetD blockMap
          (match info.block_id with | .str bid => bid | _ => "") (.dict [])
        let boardToken := pyGetD (pyGetD blockData "board" (.dict [])) "token" (.str "")
        if pyTruthy boardToken then
          [(("whiteboard" : String), .str ("[Whiteboard: " ++ pyStr boardToken ++ "]"), .none)]
        else [(("whiteboard" : String), .str "[Whiteboard]", .none)]
      else [(("whiteboard" : String), .str "[Whiteboard/画板]", .none)])
    else []

/-- The third-pass emitter of `to_markdown` (lines 772-816): the markdown
lines contributed by one render item.  There is no `blank` branch, so the
synthetic blank items from `_merge_lists` emit nothing. -/
def itemLines (it : Item) : List String :=
  match it with
  | (t, content, extra) =>
    if t = "skip" then []
    else if t = "paragraph" then
      (if pyTruthy content then [pyStr content, ""] else [])
    else if t = "heading" then
      let lvl : PyVal := if pyTruthy extra then extra else .int 1
      [String.mk (List.replicate (pyToNat lvl) '#') ++ " " ++ pyStr content, ""]
    else if t = "bullet" then ["- " ++ pyStr content]
    else if t = "ordered" then ["1. " ++ pyStr content]
    else if t = "todo" then
      let checked : PyVal := if extra ≠ .none then extra else .bool false
      [(if pyTruthy checked then "- [x]" else "- [ ]") ++ " " ++ pyStr content]
    else if t = "code" then ["```", pyStr content, "```", ""]
    else if t = "quote" then ["> " ++ pyStr content, ""]
    else if t = "divider" then ["---", ""]
    else if t = "image" then
      (if pyTruthy content then ["[Image: " ++ pyStr content ++ "]"] else ["[Image]"]) ++ [""]
    else if t = "callout" then ["> " ++ pyStr content, ""]
    else if t = "table" then [pyStr content, ""]
    else if t = "whiteboard" then [pyStr content, ""]
    else []

/-- `DocumentProcessor.to_markdown`: first pass over `iter_blocks` (with
`skip_table_cells = extract_tables`), optional `_merge_lists`, then the line
emitter, joined with newlines. -/
def toMarkdown (blocks : PyVal) (maxDepth : Nat)
    (extractTables extractWhiteboards mergeListsOpt : Bool) : String :=
  let normalized := normalizeBlocks blocks
  let blockMap : PyVal := .dict (buildBlockMap normalized)
  let items0 := (iterBlocks blocks maxDepth extractTables).flatMap
    (itemsOfInfo extractTables extractWhiteboards blockMap)
  let items := if mergeListsOpt then mergeLists items0 else items0
  strIntercalate "\n" (items.flatMap itemLines)

/-- The C1 input: a heading1 block and a text block. -/
def c1Blocks : PyVal := .list [
  .dict [("block_id", .str "h1"), ("block_type", .int 3),
         ("heading1", .dict [("elements",
            .list [.dict [("text_run", .dict [("content", .str "Title")])]])]),
         ("children", .list [])],
  .dict [("block_id", .str "p1"), ("block_type", .int 2),
         ("text", .dict [("elements",
            .list [.dict [("text_run", .dict [("content", .str "Hello")])]])]),
         ("children", .list [])]]

/-- C1: `to_markdown` with default options on the two-block input renders
exactly `"# Title\n\nHello\n"`. -/
theorem c1_end_to_end :
    toMarkdown c1Blocks 100 true false true = "# Title\n\nHello\n" := by
  rfl
